import Mathlib

/-!
Verification development for the photosifter engine (`photosift/engine.py`).

Shallow embedding conventions:
* A filesystem path is a list of components (`FPath := List String`); Python's
  `FPath.resolve()` is the identity on these already-absolute paths, `p.parent`
  is `p.dropLast`, `p.name` is the last component, and `p / s` is `p ++ [s]`.
* The filesystem is an explicit state `FS`: an association list of regular
  files with contents, a list of existing directories, and a list of `bad`
  paths on which OS-level mutating calls (`rename`, `mkdir`, `open`, `stat`)
  raise an exception; fallible primitives return `Option FS`.
* The review-ledger JSON file is a file whose content is the parsed mapping
  (`FContent.ledgerFile`); a media file's content is its byte size.  A file
  that is not valid JSON is represented by `FContent.media` and loading it
  yields the empty mapping, mirroring the `except` fallback in
  `_load_review_metadata`.
* The scan pipeline is modelled over pre-enumerated candidates: each candidate
  carries the result of its per-file processing (an exception during `stat`,
  an exception after `stat` succeeded, or success with size and SHA-256
  digest).  Hashing itself is outside the model; the digest string is the
  oracle.  Perceptual hashes and capture dates do not influence grouping and
  are left at their defaults in scan-produced `MediaFile`s.
* Python string order is lexicographic on code points (`charListLe`), and
  `str.startswith "."` is a head-character test; these are re-implemented
  structurally because the core `String` order does not reduce in the kernel.
-/

/-- A filesystem path as a list of components. -/
abbrev FPath := List String

/-- Render a path the way the ledger stores it (used for user-facing strings
and for the Python falsy test on the stored original path). -/
def pathStr (p : FPath) : String := String.intercalate "/" p

/-- Last component of a path (`PurePath.name`), empty for the root. -/
def pathName (p : FPath) : String := p.getLastD ""

/-- Code-point value of a decimal digit character. -/
def charDigitVal (c : Char) : Nat := c.toNat - 48

/-- Value of a list of decimal digit characters (proof support for the
injectivity of `Nat.repr`). -/
def digitsVal : List Char → Nat
  | [] => 0
  | c :: cs => charDigitVal c * 10 ^ cs.length + digitsVal cs

/-- Lexicographic code-point order on character lists: the order Python uses
to compare `str` values in `sorted`. -/
def charListLe : List Char → List Char → Bool
  | [], _ => true
  | _ :: _, [] => false
  | a :: as, b :: bs =>
    if a.toNat = b.toNat then charListLe as bs else decide (a.toNat < b.toNat)

/-- Python `str <= str` (code-point lexicographic order). -/
def strLe (a b : String) : Bool := charListLe a.data b.data

/-- Python `name.startswith "."`. -/
def hiddenName (s : String) : Bool :=
  match s.data with
  | [] => false
  | c :: _ => c == '.'

/-- Python `str.lower`, character by character. -/
def lowerStr (s : String) : String := ⟨s.data.map Char.toLower⟩

/-- Python `PurePath.stem`/`PurePath.suffix` split of a file name: the suffix
starts at the last dot provided that dot is neither the leading nor the
trailing character; otherwise the stem is the whole name. -/
def pySplitExt (name : String) : String × String :=
  let cs := name.data
  match cs.reverse.findIdx? (fun c => c == '.') with
  | none => (name, "")
  | some rj =>
    let i := cs.length - 1 - rj
    if 0 < i ∧ i < cs.length - 1 then (⟨cs.take i⟩, ⟨cs.drop i⟩) else (name, "")

/-- The file name `f"{stem}_{counter}{suffix}"` tried by `_get_unique_path`. -/
def variantName (stem sfx : String) (k : Nat) : String :=
  stem ++ "_" ++ Nat.repr k ++ sfx

/-- Content of a regular file: a media file of a given byte size, or the
review-ledger JSON file with its parsed mapping. -/
inductive FContent
  | media (size : Nat)
  | ledgerFile (entries : List (String × FPath))
deriving DecidableEq

/-- Byte size reported by `stat` for a file content (the ledger file's size is
irrelevant to every claim and reported as 0). -/
def FContent.fsize : FContent → Nat
  | media s => s
  | ledgerFile _ => 0

/-- Filesystem state.  `bad` lists paths on which mutating or reading OS calls
raise (modelling permission errors and the like); an empty `bad` list is the
ordinary error-free filesystem. -/
structure FS where
  files : List (FPath × FContent)
  dirs : List FPath
  bad : List FPath
deriving DecidableEq

/-- Content of the regular file at `p`, if one exists. -/
def FS.lookupFile (fs : FS) (p : FPath) : Option FContent :=
  (fs.files.find? (fun e => e.1 == p)).map (fun e => e.2)

/-- Python `Path.is_file`. -/
def FS.isFile (fs : FS) (p : FPath) : Bool := (fs.lookupFile p).isSome

/-- Python `Path.is_dir`. -/
def FS.isDir (fs : FS) (p : FPath) : Bool := fs.dirs.contains p

/-- Python `Path.exists`: a regular file or a directory is present. -/
def FS.pexists (fs : FS) (p : FPath) : Bool := fs.isFile p || fs.isDir p

/-- Create or overwrite the regular file at `p`. -/
def FS.setFile (fs : FS) (p : FPath) (c : FContent) : FS :=
  { fs with files := (p, c) :: fs.files.filter (fun e => e.1 != p) }

/-- Remove the regular file at `p` (no-op when absent). -/
def FS.removeFile (fs : FS) (p : FPath) : FS :=
  { fs with files := fs.files.filter (fun e => e.1 != p) }

/-- Python `Path.rename`: fails (raises) when the source is not a regular
file, when either endpoint is on a `bad` path, or when a directory occupies
the destination; otherwise the file changes path, replacing any regular file
previously at the destination. -/
def FS.rename (fs : FS) (src dst : FPath) : Option FS :=
  match fs.lookupFile src with
  | none => none
  | some c =>
    if src ∈ fs.bad ∨ dst ∈ fs.bad ∨ fs.isDir dst then none
    else some ((fs.removeFile src).setFile dst c)

/-- Python `Path.mkdir(parents=True, exist_ok=True)`: fails on a `bad` path or
when a regular file occupies the path; otherwise ensures the directory
exists. -/
def FS.mkdirParents (fs : FS) (p : FPath) : Option FS :=
  if p ∈ fs.bad then none
  else if fs.isFile p then none
  else some { fs with dirs := if p ∈ fs.dirs then fs.dirs else p :: fs.dirs }

/-- Python `Path.stat().st_size`, `none` when `stat` raises. -/
def FS.statSize (fs : FS) (p : FPath) : Option Nat :=
  if p ∈ fs.bad then none else (fs.lookupFile p).map FContent.fsize

/-- Python `Path.iterdir`: the immediate children (files and directories). -/
def FS.iterdir (fs : FS) (d : FPath) : List FPath :=
  ((fs.files.map (fun e => e.1)) ++ fs.dirs).filter (fun p => p.dropLast == d)

/-- Name of the per-review-folder ledger file. -/
def ledgerName : String := ".photosifter_metadata.json"

/-- Location of the ledger file inside a review folder. -/
def metadataPath (review : FPath) : FPath := review ++ [ledgerName]

/-- Ledger lookup (`dict.get`). -/
def lookupEntry (m : List (String × FPath)) (k : String) : Option FPath :=
  (m.find? (fun e => e.1 == k)).map (fun e => e.2)

/-- Ledger update (`dict.__setitem__`): replace in place or append at the
end, preserving Python's dict insertion order. -/
def setEntry : List (String × FPath) → String → FPath → List (String × FPath)
  | [], k, v => [(k, v)]
  | e :: rest, k, v => if e.1 == k then (k, v) :: rest else e :: setEntry rest k v

/-- Ledger deletion (`dict.__delitem__`). -/
def eraseEntry (m : List (String × FPath)) (k : String) : List (String × FPath) :=
  m.filter (fun e => e.1 != k)

/-- `PhotoSifterEngine._load_review_metadata`: parse the ledger file, treating
a missing, unreadable or malformed file as the empty mapping. -/
def load_review_metadata (fs : FS) (review : FPath) : List (String × FPath) :=
  if metadataPath review ∈ fs.bad then []
  else
    match fs.lookupFile (metadataPath review) with
    | some (FContent.ledgerFile m) => m
    | some (FContent.media _) => []
    | none => []

/-- `PhotoSifterEngine._save_review_metadata`: overwrite the ledger file with
a fresh serialization; any exception (a `bad` path, or a directory sitting at
the ledger path) is swallowed, leaving the filesystem unchanged. -/
def save_review_metadata (fs : FS) (review : FPath) (m : List (String × FPath)) : FS :=
  if metadataPath review ∈ fs.bad ∨ fs.isDir (metadataPath review) then fs
  else fs.setFile (metadataPath review) (FContent.ledgerFile m)

/-- Total number of filesystem entries: an upper bound on how many paths can
exist, used as fuel for the `_get_unique_path` loop. -/
def fsEntryCount (fs : FS) : Nat := fs.files.length + fs.dirs.length

/-- The `while path.exists()` loop of `_get_unique_path`: try
`parent / f"{stem}_{counter}{suffix}"` for `counter = c, c+1, ...` and return
the first candidate that does not exist.  The fuel is always sufficient
(`uniqueGo` is called with more fuel than there are filesystem entries). -/
def uniqueGo (fs : FS) (par : FPath) (stem sfx : String) : Nat → Nat → FPath
  | counter, 0 => par ++ [variantName stem sfx counter]
  | counter, fuel + 1 =>
    let p := par ++ [variantName stem sfx counter]
    if fs.pexists p then uniqueGo fs par stem sfx (counter + 1) fuel else p

/-- `PhotoSifterEngine._get_unique_path`. -/
def get_unique_path (fs : FS) (path : FPath) : FPath :=
  if fs.pexists path then
    uniqueGo fs path.dropLast (pySplitExt (pathName path)).1 (pySplitExt (pathName path)).2
      1 (fsEntryCount fs + 1)
  else path

/-- `PhotoSifterEngine.revert_file`.  Returns the filesystem after the call
together with the `(success, message)` pair.  The placeholder `"OSError"`
stands for the text of the caught exception. -/
def revert_file (fs : FS) (review : FPath) (filename : String) : FS × Bool × String :=
  let file_path := review ++ [filename]
  if ¬ fs.pexists file_path then (fs, false, "File not found: " ++ filename)
  else
    let metadata := load_review_metadata fs review
    match lookupEntry metadata filename with
    | none => (fs, false, "Original path not found for: " ++ filename)
    | some original_path =>
      if pathStr original_path = "" then
        (fs, false, "Original path not found for: " ++ filename)
      else
        match fs.mkdirParents original_path.dropLast with
        | none => (fs, false, "Error reverting " ++ filename ++ ": OSError")
        | some fs1 =>
          let dest_path := get_unique_path fs1 original_path
          match fs1.rename file_path dest_path with
          | none => (fs1, false, "Error reverting " ++ filename ++ ": OSError")
          | some fs2 =>
            (save_review_metadata fs2 review (eraseEntry metadata filename),
             true, "Reverted to: " ++ pathStr dest_path)

/-- One discovered media file (`MediaFile` dataclass).  `date_taken` and
`phash` take their default values in the scan model (they never influence
grouping or the review workflows). -/
structure MediaFile where
  path : FPath
  size : Nat
  sha256 : String
  phash : String
  date_taken : Option Nat
  is_duplicate : Bool
  duplicate_of : Option FPath
  original_path : Option FPath
deriving DecidableEq

/-- `DuplicateGroup` dataclass. -/
structure DuplicateGroup where
  sha256 : String
  files : List MediaFile
  selected_to_keep : Option FPath
deriving DecidableEq

/-- `DuplicateGroup.files_to_delete`: members whose path differs from the
selection (Python's `f.path != self.selected_to_keep`, which is true for every
member when no selection is set). -/
def DuplicateGroup.files_to_delete (g : DuplicateGroup) : List MediaFile :=
  g.files.filter (fun f => some f.path != g.selected_to_keep)

/-- `DuplicateGroup.space_recoverable`. -/
def DuplicateGroup.space_recoverable (g : DuplicateGroup) : Nat :=
  (g.files_to_delete.map (fun f => f.size)).sum

/-- `ScanResult` dataclass. -/
structure ScanResult where
  total_files : Nat
  total_size : Nat
  duplicate_groups : List DuplicateGroup
  unique_files : List MediaFile
  errors : List String
deriving DecidableEq

/-- `ScanResult.get_all_files_to_delete`. -/
def ScanResult.get_all_files_to_delete (r : ScanResult) : List MediaFile :=
  r.duplicate_groups.flatMap DuplicateGroup.files_to_delete

/-- In-memory state of the `move_duplicates_to_review` loop. -/
structure MoveState where
  fs : FS
  meta : List (String × FPath)
  moved : Nat
  errs : List String
deriving DecidableEq

/-- One iteration of the `move_duplicates_to_review` loop: allocate a
collision-free destination inside the review folder, rename the file there and
record `dest.name -> original path` in the in-memory ledger; a failed rename
appends an error and leaves everything else unchanged.  (The source also sets
`media_file.original_path`; no claim depends on the returned list of
dataclasses, so that mutation is not tracked.) -/
def moveStep (review : FPath) (st : MoveState) (m : MediaFile) : MoveState :=
  let dest_path := get_unique_path st.fs (review ++ [pathName m.path])
  match st.fs.rename m.path dest_path with
  | some fs' =>
    { fs := fs', meta := setEntry st.meta (pathName dest_path) m.path,
      moved := st.moved + 1, errs := st.errs }
  | none =>
    { st with errs := st.errs ++ ["Error moving " ++ pathStr m.path ++ ": OSError"] }

/-- `PhotoSifterEngine.move_duplicates_to_review`.  Returns `none` when the
initial `review_folder.mkdir` raises (that exception propagates in the
source); otherwise the final filesystem, the number of files moved and the
error list. -/
def move_duplicates_to_review (fs : FS) (result : ScanResult) (review : FPath) :
    Option (FS × Nat × List String) :=
  match fs.mkdirParents review with
  | none => none
  | some fs1 =>
    let st0 : MoveState := ⟨fs1, load_review_metadata fs1 review, 0, []⟩
    let st := result.get_all_files_to_delete.foldl (moveStep review) st0
    some (save_review_metadata st.fs review st.meta, st.moved, st.errs)

/-- The unsorted listing built by `get_review_folder_files`: one triple
`(filename, original path or "Unknown", size or 0)` per non-hidden regular
file in the review folder. -/
def reviewTriples (fs : FS) (review : FPath) : List (String × String × Nat) :=
  (fs.iterdir review).filterMap (fun p =>
    if fs.isFile p && !hiddenName (pathName p) then
      some (pathName p,
        (match lookupEntry (load_review_metadata fs review) (pathName p) with
         | some o => pathStr o
         | none => "Unknown"),
        (fs.statSize p).getD 0)
    else none)

/-- `PhotoSifterEngine.get_review_folder_files`: empty when the review folder
does not exist, otherwise the listing sorted ascending by filename. -/
def get_review_folder_files (fs : FS) (review : FPath) : List (String × String × Nat) :=
  if ¬ fs.pexists review then []
  else List.insertionSort (fun a b => strLe a.1 b.1 = true) (reviewTriples fs review)

/-- Outcome of processing one candidate file during the scan's hashing pass:
`stat` raised; a later step (reading, hashing, date extraction) raised after
`stat` had already succeeded (so its size was added to `total_size`); or
everything succeeded yielding the size and content digest. -/
inductive ProcOutcome
  | statFail (e : String)
  | hashFail (size : Nat) (e : String)
  | ok (size : Nat) (sha : String)
deriving DecidableEq

/-- Whether processing succeeded. -/
def ProcOutcome.isOk : ProcOutcome → Bool
  | ok _ _ => true
  | _ => false

/-- One enumerated candidate file together with its processing outcome. -/
structure Candidate where
  path : FPath
  outcome : ProcOutcome
deriving DecidableEq

/-- One root folder passed to `scan_folders`: either missing, or enumerating
(in `rglob` order) the media files that survive the extension and hidden/temp
name filters. -/
structure Root where
  path : FPath
  found : Bool
  cands : List Candidate
deriving DecidableEq

/-- The `all_files` list of the scan's first pass: candidates of the existing
roots, root by root in the given order. -/
def allCandidates (roots : List Root) : List Candidate :=
  (roots.filter (fun r => r.found)).flatMap (fun r => r.cands)

/-- The error strings recorded for missing roots during the first pass. -/
def rootErrors (roots : List Root) : List String :=
  (roots.filter (fun r => !r.found)).map (fun r => "Folder not found: " ++ pathStr r.path)

/-- The `MediaFile` built for a successfully processed candidate. -/
def mkMediaFile (p : FPath) (s : Nat) (sha : String) : MediaFile :=
  ⟨p, s, sha, "", none, false, none, none⟩

/-- The per-file error message of the scan loop. -/
def procMsg (p : FPath) (e : String) : String :=
  "Error processing " ++ pathStr p ++ ": " ++ e

/-- `hash_groups[sha].append(m)` with Python dict semantics: update the unique
entry for an existing key in place, append a new key at the end. -/
def updateBucket : List (String × List MediaFile) → String → MediaFile →
    List (String × List MediaFile)
  | [], sha, m => [(sha, [m])]
  | e :: rest, sha, m =>
    if e.1 == sha then (e.1, e.2 ++ [m]) :: rest else e :: updateBucket rest sha m

/-- Accumulator of the scan's hashing pass. -/
structure ScanAcc where
  total_size : Nat
  hash_groups : List (String × List MediaFile)
  errors : List String
deriving DecidableEq

/-- One iteration of the scan's hashing pass (the `try`/`except` body). -/
def procStep (acc : ScanAcc) (c : Candidate) : ScanAcc :=
  match c.outcome with
  | ProcOutcome.statFail e =>
    { acc with errors := acc.errors ++ [procMsg c.path e] }
  | ProcOutcome.hashFail s e =>
    { acc with total_size := acc.total_size + s, errors := acc.errors ++ [procMsg c.path e] }
  | ProcOutcome.ok s sha =>
    { acc with total_size := acc.total_size + s,
               hash_groups := updateBucket acc.hash_groups sha (mkMediaFile c.path s sha) }

/-- The `DuplicateGroup` built for a bucket of size at least 2: all members
except the first are marked `is_duplicate` with `duplicate_of` pointing at the
first member, and the first member's path is the default keep selection. -/
def markGroup (sha : String) (f0 : MediaFile) (rest : List MediaFile) : DuplicateGroup :=
  ⟨sha, f0 :: rest.map (fun f => { f with is_duplicate := true, duplicate_of := some f0.path }),
   some f0.path⟩

/-- The scan's final pass over `hash_groups.items()`: buckets of size 1 feed
`unique_files`, larger buckets become duplicate groups, in bucket order. -/
def classifyBuckets : List (String × List MediaFile) →
    List MediaFile × List DuplicateGroup
  | [] => ([], [])
  | (sha, fsl) :: rest =>
    let r := classifyBuckets rest
    match fsl with
    | [] => r
    | [f] => (f :: r.1, r.2)
    | f0 :: f1 :: frest => (r.1, markGroup sha f0 (f1 :: frest) :: r.2)

/-- `PhotoSifterEngine.scan_folders`.  Cancellation cannot fire in this
single-threaded model (the flag is reset on entry and only an external thread
could set it), and the progress callback has no observable effect, so neither
appears.  `total_files` is set from the enumeration before any hashing. -/
def scan_folders (roots : List Root) : ScanResult :=
  let all_files := allCandidates roots
  let acc := all_files.foldl procStep ⟨0, [], rootErrors roots⟩
  let ug := classifyBuckets acc.hash_groups
  ⟨all_files.length, acc.total_size, ug.2, ug.1, acc.errors⟩

/-- Photographic extensions (`PHOTO_EXTS`). -/
def PHOTO_EXTS : List String :=
  [".jpg", ".jpeg", ".png", ".webp", ".gif", ".bmp", ".tiff", ".tif", ".heic", ".heif"]

/-- A parsed `datetime` value. -/
structure DT where
  year : Nat
  month : Nat
  day : Nat
  hour : Nat
  minute : Nat
  second : Nat
deriving DecidableEq

/-- Decimal digit value of a character, if it is a digit. -/
def digit? (c : Char) : Option Nat :=
  if 48 ≤ c.toNat ∧ c.toNat ≤ 57 then some (c.toNat - 48) else none

/-- Two-digit decimal field. -/
def twoDigits (a b : Char) : Option Nat :=
  match digit? a, digit? b with
  | some x, some y => some (x * 10 + y)
  | _, _ => none

/-- `datetime.strptime(s, "%Y:%m:%d %H:%M:%S")`, returning `none` where the
source raises `ValueError` (wrong shape, non-digits, or out-of-range
fields). -/
def parseExifDT (s : String) : Option DT :=
  match s.data with
  | [y1, y2, y3, y4, c1, o1, o2, c2, a1, a2, sp, h1, h2, c3, i1, i2, c4, s1, s2] =>
    if c1 == ':' && c2 == ':' && sp == ' ' && c3 == ':' && c4 == ':' then
      match twoDigits y1 y2, twoDigits y3 y4, twoDigits o1 o2, twoDigits a1 a2,
            twoDigits h1 h2, twoDigits i1 i2, twoDigits s1 s2 with
      | some yh, some yl, some mo, some da, some ho, some mi, some se =>
        if 1 ≤ mo ∧ mo ≤ 12 ∧ 1 ≤ da ∧ da ≤ 31 ∧ ho ≤ 23 ∧ mi ≤ 59 ∧ se ≤ 59 then
          some ⟨yh * 100 + yl, mo, da, ho, mi, se⟩
        else none
      | _, _, _, _, _, _, _ => none
    else none
  | _ => none

/-- Raw values of the two capture-time EXIF tags. -/
structure ExifInfo where
  tag36867 : Option String
  tag36868 : Option String
deriving DecidableEq

/-- Result of `Image.open` plus `_getexif` on the file: the open (or
`_getexif`) raised, there is no EXIF dictionary, or the tag values are
available. -/
inductive ImageRead
  | openFail
  | noExif
  | exif (e : ExifInfo)
deriving DecidableEq

/-- Environment of one `_get_date_taken` call. -/
structure DateCtx where
  suffix : String
  image : ImageRead
  mtimeDT : DT
deriving DecidableEq

/-- The first truthy tag value in the `[36867, 36868]` loop (`exif.get(tag)`
followed by `if date_str:`, so an empty string is skipped like a missing
tag). -/
def firstTagValue (e : ExifInfo) : Option String :=
  match e.tag36867 with
  | some s =>
    if s == "" then
      match e.tag36868 with
      | some t => if t == "" then none else some t
      | none => none
    else some s
  | none =>
    match e.tag36868 with
    | some t => if t == "" then none else some t
    | none => none

/-- `PhotoSifterEngine._get_date_taken`: EXIF capture time for photographic
extensions when everything succeeds, the file's modification time otherwise
(every exception inside the `try` is caught, including the `strptime`
`ValueError` on the first truthy tag, which skips the remaining tag). -/
def get_date_taken (ctx : DateCtx) : DT :=
  if PHOTO_EXTS.contains (lowerStr ctx.suffix) then
    match ctx.image with
    | ImageRead.openFail => ctx.mtimeDT
    | ImageRead.noExif => ctx.mtimeDT
    | ImageRead.exif e =>
      match firstTagValue e with
      | none => ctx.mtimeDT
      | some s =>
        match parseExifDT s with
        | some dt => dt
        | none => ctx.mtimeDT
  else ctx.mtimeDT

/-- The in-memory state of the `move_duplicates_to_review` loop after
processing a prefix of the batch (the loop of the source, stopped early). -/
def moveLoopState (review : FPath) (fs1 : FS) (pre : List MediaFile) : MoveState :=
  pre.foldl (moveStep review) ⟨fs1, load_review_metadata fs1 review, 0, []⟩

/-- The in-review filename a file is given when it is moved by the loop from
the given state (the `dest_path.name` of the source). -/
def moveDestName (review : FPath) (st : MoveState) (m : MediaFile) : String :=
  pathName (get_unique_path st.fs (review ++ [pathName m.path]))

/-- Lookup of a digest bucket (characterization helper for `hash_groups`). -/
def bucketFind (gs : List (String × List MediaFile)) (sha : String) :
    Option (List MediaFile) :=
  (gs.find? (fun e => e.1 == sha)).map (fun e => e.2)

/-- The `MediaFile` a candidate contributes when its processing succeeds
(characterization helper). -/
def okMedia (c : Candidate) : Option MediaFile :=
  match c.outcome with
  | ProcOutcome.ok s sha => some (mkMediaFile c.path s sha)
  | _ => none

/-- The error message a candidate contributes when its processing fails
(characterization helper). -/
def failMsg (c : Candidate) : Option String :=
  match c.outcome with
  | ProcOutcome.statFail e => some (procMsg c.path e)
  | ProcOutcome.hashFail _ e => some (procMsg c.path e)
  | ProcOutcome.ok _ _ => none

/-- Total size of all buckets (characterization helper). -/
def sumLens (gs : List (String × List MediaFile)) : Nat :=
  (gs.map (fun e => e.2.length)).sum

/-! Injectivity of `Nat.repr`, needed to show that the numbered names tried by
`_get_unique_path` are pairwise distinct. -/

theorem digitChar_val_of_lt_ten (m : Nat) (hm : m < 10) :
    charDigitVal (Nat.digitChar m) = m := by
  interval_cases m <;> decide

theorem digitsVal_toDigitsCore (fuel : Nat) : ∀ (n : Nat) (ds : List Char), n < fuel →
    digitsVal (Nat.toDigitsCore 10 fuel n ds) = n * 10 ^ ds.length + digitsVal ds := by
  induction fuel with
  | zero => intro n ds h; omega
  | succ fuel ih =>
    intro n ds h
    simp only [Nat.toDigitsCore]
    by_cases h10 : n / 10 = 0
    · simp only [h10, if_true, digitsVal]
      have hn : n < 10 := by omega
      rw [Nat.mod_eq_of_lt hn, digitChar_val_of_lt_ten n hn]
    · simp only [h10, if_false]
      have hdiv : n / 10 < fuel := by omega
      rw [ih (n / 10) (Nat.digitChar (n % 10) :: ds) hdiv]
      simp only [digitsVal, List.length_cons]
      rw [digitChar_val_of_lt_ten (n % 10) (Nat.mod_lt n (by omega)), pow_succ]
      have hsplit : n * 10 ^ ds.length = (10 * (n / 10) + n % 10) * 10 ^ ds.length := by
        rw [Nat.div_add_mod n 10]
      rw [hsplit]
      ring

theorem digitsVal_toDigits (n : Nat) : digitsVal (Nat.toDigits 10 n) = n := by
  unfold Nat.toDigits
  rw [digitsVal_toDigitsCore (n + 1) n [] (Nat.lt_succ_self n)]
  simp [digitsVal]

theorem natRepr_injective : Function.Injective Nat.repr := by
  intro m n h
  unfold Nat.repr at h
  have h2 : Nat.toDigits 10 m = Nat.toDigits 10 n := by
    have := congrArg String.data h
    simpa [List.asString] using this
  have := congrArg digitsVal h2
  rwa [digitsVal_toDigits, digitsVal_toDigits] at this

theorem variantName_injective (stem sfx : String) : ∀ i j : Nat,
    variantName stem sfx i = variantName stem sfx j → i = j := by
  intro i j h
  unfold variantName at h
  have hd := congrArg String.data h
  simp only [String.data_append] at hd
  have h1 := List.append_cancel_right hd
  have h2 := List.append_cancel_left h1
  exact natRepr_injective (String.ext h2)

/-! C7: files_to_delete and space_recoverable. -/

theorem filter_ne_length_of_nodup_map {α β : Type} [DecidableEq β] (f : α → β) :
    ∀ (l : List α) (b : β), b ∈ l.map f → (l.map f).Nodup →
    (l.filter (fun a => f a ≠ b)).length + 1 = l.length := by
  intro l
  induction l with
  | nil => intro b hb _; simp at hb
  | cons x xs ih =>
    intro b hb hnd
    simp only [List.map_cons, List.nodup_cons] at hnd
    by_cases hx : f x = b
    · have hrest : ∀ a ∈ xs, f a ≠ b := by
        intro a ha hfa
        apply hnd.1
        rw [hx, ← hfa]
        exact List.mem_map_of_mem f ha
      have : xs.filter (fun a => f a ≠ b) = xs := by
        apply List.filter_eq_self.2
        intro a ha
        simp [hrest a ha]
      simp only [List.filter_cons, List.length_cons]
      rw [if_neg (by simp [hx]), this]
    · have hb' : b ∈ xs.map f := by
        rcases List.mem_map.1 hb with ⟨a, ha, hfa⟩
        rcases List.mem_cons.1 ha with h | h
        · exact absurd (h ▸ hfa) hx
        · exact List.mem_map.2 ⟨a, h, hfa⟩
      simp only [List.filter_cons, List.length_cons]
      rw [if_pos (by simp [hx])]
      simp only [List.length_cons]
      rw [ih b hb' hnd.2]

/-- C7 (amended): for a duplicate group whose members have pairwise distinct
paths and whose selection is some member's path, `space_recoverable` is the
sum of the sizes of `files_to_delete`, and `files_to_delete` has exactly
`len(files) - 1` members.  (Without the distinctness proviso the count claim
fails, see the counterexample.) -/
theorem C7_files_to_delete_count (sha : String) (files : List MediaFile) (p : FPath)
    (hmem : p ∈ files.map (fun f => f.path)) (hnd : (files.map (fun f => f.path)).Nodup) :
    (DuplicateGroup.mk sha files (some p)).space_recoverable =
      (((DuplicateGroup.mk sha files (some p)).files_to_delete).map (fun f => f.size)).sum ∧
    ((DuplicateGroup.mk sha files (some p)).files_to_delete).length + 1 = files.length := by
  constructor
  · rfl
  · have : (DuplicateGroup.mk sha files (some p)).files_to_delete =
        files.filter (fun f => f.path ≠ p) := by
      unfold DuplicateGroup.files_to_delete
      apply List.filter_congr
      intro f _
      by_cases h : f.path = p <;> simp [h]
    rw [this]
    exact filter_ne_length_of_nodup_map (fun f => f.path) files p hmem hnd

/-- C7 counterexample: with two members sharing one path and that path
selected, `files_to_delete` is empty rather than of size `len(files) - 1`,
although the selection is a member's path. -/
theorem C7_files_to_delete_count_cex :
    (["p"] ∈ ([mkMediaFile ["p"] 1 "h", mkMediaFile ["p"] 1 "h"].map (fun f => f.path))) ∧
    (DuplicateGroup.mk "h" [mkMediaFile ["p"] 1 "h", mkMediaFile ["p"] 1 "h"]
        (some ["p"])).files_to_delete.length ≠
      [mkMediaFile ["p"] 1 "h", mkMediaFile ["p"] 1 "h"].length - 1 := by
  constructor
  · decide
  · decide

/-- C7 witness: a two-member group with distinct paths, keeping the first. -/
theorem C7_files_to_delete_count_witness :
    (["a"] ∈ ([mkMediaFile ["a"] 1 "h", mkMediaFile ["b"] 2 "h"].map (fun f => f.path))) ∧
    (DuplicateGroup.mk "h" [mkMediaFile ["a"] 1 "h", mkMediaFile ["b"] 2 "h"]
        (some ["a"])).space_recoverable =
      (((DuplicateGroup.mk "h" [mkMediaFile ["a"] 1 "h", mkMediaFile ["b"] 2 "h"]
        (some ["a"])).files_to_delete).map (fun f => f.size)).sum ∧
    ((DuplicateGroup.mk "h" [mkMediaFile ["a"] 1 "h", mkMediaFile ["b"] 2 "h"]
        (some ["a"])).files_to_delete).length + 1 =
      [mkMediaFile ["a"] 1 "h", mkMediaFile ["b"] 2 "h"].length := by
  refine ⟨by decide, ?_⟩
  exact C7_files_to_delete_count "h" [mkMediaFile ["a"] 1 "h", mkMediaFile ["b"] 2 "h"] ["a"]
    (by decide) (by decide)

/-! C9: date extraction never propagates metadata failures. -/

/-- C9: `_get_date_taken` falls back to the modification time for every
non-photographic extension and on every EXIF failure (unopenable image,
missing EXIF dictionary, no truthy capture-time tag, unparseable first truthy
tag); in all cases the result is either the parsed EXIF capture time or the
modification time, so no metadata exception escapes. -/
theorem C9_date_taken_fallback (ctx : DateCtx) :
    (PHOTO_EXTS.contains (lowerStr ctx.suffix) = false →
      get_date_taken ctx = ctx.mtimeDT) ∧
    (ctx.image = ImageRead.openFail → get_date_taken ctx = ctx.mtimeDT) ∧
    (ctx.image = ImageRead.noExif → get_date_taken ctx = ctx.mtimeDT) ∧
    (∀ e, ctx.image = ImageRead.exif e → firstTagValue e = none →
      get_date_taken ctx = ctx.mtimeDT) ∧
    (∀ e s, ctx.image = ImageRead.exif e → firstTagValue e = some s →
      parseExifDT s = none → get_date_taken ctx = ctx.mtimeDT) ∧
    (get_date_taken ctx = ctx.mtimeDT ∨
      ∃ e s dt, ctx.image = ImageRead.exif e ∧ firstTagValue e = some s ∧
        parseExifDT s = some dt ∧ get_date_taken ctx = dt) := by
  by_cases hp : PHOTO_EXTS.contains (lowerStr ctx.suffix) = true
  case neg =>
    have hres : get_date_taken ctx = ctx.mtimeDT := by
      unfold get_date_taken
      rw [if_neg hp]
    exact ⟨fun _ => hres, fun _ => hres, fun _ => hres, fun _ _ _ => hres,
      fun _ _ _ _ _ => hres, Or.inl hres⟩
  case pos =>
    have hopen : ctx.image = ImageRead.openFail → get_date_taken ctx = ctx.mtimeDT := by
      intro h
      unfold get_date_taken
      rw [if_pos hp, h]
    have hnoe : ctx.image = ImageRead.noExif → get_date_taken ctx = ctx.mtimeDT := by
      intro h
      unfold get_date_taken
      rw [if_pos hp, h]
    have hexif : ∀ e, ctx.image = ImageRead.exif e → get_date_taken ctx =
        (match firstTagValue e with
         | none => ctx.mtimeDT
         | some s =>
           match parseExifDT s with
           | some dt => dt
           | none => ctx.mtimeDT) := by
      intro e h
      unfold get_date_taken
      rw [if_pos hp, h]
    have hc4 : ∀ e, ctx.image = ImageRead.exif e → firstTagValue e = none →
        get_date_taken ctx = ctx.mtimeDT := by
      intro e he hft
      rw [hexif e he, hft]
    have hc5 : ∀ e s, ctx.image = ImageRead.exif e → firstTagValue e = some s →
        parseExifDT s = none → get_date_taken ctx = ctx.mtimeDT := by
      intro e s he hft hpd
      rw [hexif e he, hft]
      show (match parseExifDT s with
            | some dt => dt
            | none => ctx.mtimeDT) = ctx.mtimeDT
      rw [hpd]
    refine ⟨fun h => absurd (h ▸ hp) Bool.false_ne_true, hopen, hnoe, hc4, hc5, ?_⟩
    cases himg : ctx.image with
    | openFail => exact Or.inl (hopen himg)
    | noExif => exact Or.inl (hnoe himg)
    | exif e =>
      cases hft : firstTagValue e with
      | none => exact Or.inl (hc4 e himg hft)
      | some s =>
        cases hpd : parseExifDT s with
        | none => exact Or.inl (hc5 e s himg hft hpd)
        | some dt =>
          refine Or.inr ⟨e, s, dt, rfl, hft, hpd, ?_⟩
          rw [hexif e himg, hft]
          show (match parseExifDT s with
                | some dt => dt
                | none => ctx.mtimeDT) = dt
          rw [hpd]

/-- C9 witness: a video extension falls back to mtime, and an unparseable
EXIF value on a photo extension falls back to mtime. -/
theorem C9_date_taken_fallback_witness :
    (PHOTO_EXTS.contains (lowerStr ".MP4") = false ∧
      get_date_taken ⟨".MP4", ImageRead.noExif, ⟨2020, 1, 2, 3, 4, 5⟩⟩ =
        (⟨2020, 1, 2, 3, 4, 5⟩ : DT)) ∧
    (firstTagValue ⟨some "not a date", none⟩ = some "not a date" ∧
      parseExifDT "not a date" = none ∧
      get_date_taken ⟨".JPG", ImageRead.exif ⟨some "not a date", none⟩, ⟨2020, 1, 2, 3, 4, 5⟩⟩ =
        (⟨2020, 1, 2, 3, 4, 5⟩ : DT)) := by
  refine ⟨⟨by decide, ?_⟩, ⟨by decide, by decide, ?_⟩⟩
  · exact (C9_date_taken_fallback ⟨".MP4", ImageRead.noExif, ⟨2020, 1, 2, 3, 4, 5⟩⟩).1
      (by decide)
  · exact ((C9_date_taken_fallback
      ⟨".JPG", ImageRead.exif ⟨some "not a date", none⟩, ⟨2020, 1, 2, 3, 4, 5⟩⟩).2.2.2.2.1)
      ⟨some "not a date", none⟩ "not a date" rfl (by decide) (by decide)

/-! C3: the path allocator `_get_unique_path`. -/

theorem pexists_mem_entries (fs : FS) (p : FPath) (h : fs.pexists p = true) :
    p ∈ fs.files.map (fun e => e.1) ++ fs.dirs := by
  unfold FS.pexists FS.isFile FS.isDir at h
  rcases Bool.or_eq_true_iff.1 h with hf | hd
  · apply List.mem_append_left
    unfold FS.lookupFile at hf
    cases hfind : List.find? (fun e => e.1 == p) fs.files with
    | none => rw [hfind] at hf; cases hf
    | some e =>
      have hmem := List.mem_of_find?_eq_some hfind
      have hbeq := List.find?_some hfind
      have heq : e.1 = p := eq_of_beq hbeq
      exact heq ▸ List.mem_map_of_mem (fun e => e.1) hmem
  · exact List.mem_append_right _ (List.elem_iff.1 hd)

theorem variantPath_injective (par : FPath) (stem sfx : String) :
    Function.Injective (fun k => par ++ [variantName stem sfx k]) := by
  intro i j h
  simp only [List.append_cancel_left_eq, List.cons.injEq] at h
  exact variantName_injective stem sfx i j h.1

theorem exists_nonexistent_variant (fs : FS) (par : FPath) (stem sfx : String) (c : Nat) :
    ∃ t, t < fsEntryCount fs + 1 ∧
      fs.pexists (par ++ [variantName stem sfx (c + t)]) = false := by
  by_contra hcon
  push_neg at hcon
  have hall : ∀ t, t < fsEntryCount fs + 1 →
      fs.pexists (par ++ [variantName stem sfx (c + t)]) = true := by
    intro t ht
    have := hcon t ht
    revert this
    cases fs.pexists (par ++ [variantName stem sfx (c + t)]) <;> simp
  have hinj : Function.Injective (fun t : Nat => par ++ [variantName stem sfx (c + t)]) := by
    intro i j h
    have := variantPath_injective par stem sfx h
    omega
  have hnd : ((List.range (fsEntryCount fs + 1)).map
      (fun t => par ++ [variantName stem sfx (c + t)])).Nodup :=
    (List.nodup_range _).map hinj
  have hsub : ((List.range (fsEntryCount fs + 1)).map
      (fun t => par ++ [variantName stem sfx (c + t)])) ⊆
      fs.files.map (fun e => e.1) ++ fs.dirs := by
    intro x hx
    rcases List.mem_map.1 hx with ⟨t, ht, rfl⟩
    exact pexists_mem_entries fs _ (hall t (List.mem_range.1 ht))
  have hlen := (List.subperm_of_subset hnd hsub).length_le
  simp only [List.length_map, List.length_range, List.length_append] at hlen
  unfold fsEntryCount at hlen
  omega

theorem uniqueGo_spec (fs : FS) (par : FPath) (stem sfx : String) :
    ∀ (fuel c : Nat),
    (∃ t, t < fuel ∧ fs.pexists (par ++ [variantName stem sfx (c + t)]) = false) →
    ∃ k, c ≤ k ∧
      uniqueGo fs par stem sfx c fuel = par ++ [variantName stem sfx k] ∧
      fs.pexists (par ++ [variantName stem sfx k]) = false ∧
      ∀ j, c ≤ j → j < k → fs.pexists (par ++ [variantName stem sfx j]) = true := by
  intro fuel
  induction fuel with
  | zero =>
    intro c h
    rcases h with ⟨t, ht, _⟩
    omega
  | succ fuel ih =>
    intro c h
    by_cases hce : fs.pexists (par ++ [variantName stem sfx c]) = true
    · have hnext : ∃ t, t < fuel ∧
          fs.pexists (par ++ [variantName stem sfx (c + 1 + t)]) = false := by
        rcases h with ⟨t, ht, hf⟩
        cases t with
        | zero =>
          rw [Nat.add_zero] at hf
          rw [hce] at hf
          cases hf
        | succ t' =>
          refine ⟨t', by omega, ?_⟩
          have harith : c + (t' + 1) = c + 1 + t' := by omega
          rwa [harith] at hf
      rcases ih (c + 1) hnext with ⟨k, hk1, hk2, hk3, hk4⟩
      refine ⟨k, by omega, ?_, hk3, ?_⟩
      · simp only [uniqueGo]
        rw [if_pos hce]
        exact hk2
      · intro j hj1 hj2
        by_cases hjc : j = c
        · exact hjc ▸ hce
        · exact hk4 j (by omega) hj2
    · refine ⟨c, le_refl c, ?_, ?_, ?_⟩
      · simp only [uniqueGo]
        rw [if_neg hce]
      · revert hce
        cases fs.pexists (par ++ [variantName stem sfx c]) <;> simp
      · intro j hj1 hj2
        omega

theorem get_unique_path_spec (fs : FS) (path : FPath) :
    (fs.pexists path = false → get_unique_path fs path = path) ∧
    (fs.pexists path = true → ∃ k, 1 ≤ k ∧
      get_unique_path fs path = path.dropLast ++
        [variantName (pySplitExt (pathName path)).1 (pySplitExt (pathName path)).2 k] ∧
      fs.pexists (path.dropLast ++
        [variantName (pySplitExt (pathName path)).1 (pySplitExt (pathName path)).2 k]) = false ∧
      ∀ j, 1 ≤ j → j < k → fs.pexists (path.dropLast ++
        [variantName (pySplitExt (pathName path)).1 (pySplitExt (pathName path)).2 j]) = true) ∧
    fs.pexists (get_unique_path fs path) = false := by
  by_cases hp : fs.pexists path = true
  · have hex := exists_nonexistent_variant fs path.dropLast
      (pySplitExt (pathName path)).1 (pySplitExt (pathName path)).2 1
    have hex' : ∃ t, t < fsEntryCount fs + 1 ∧
        fs.pexists (path.dropLast ++ [variantName (pySplitExt (pathName path)).1
          (pySplitExt (pathName path)).2 (1 + t)]) = false := hex
    rcases uniqueGo_spec fs path.dropLast (pySplitExt (pathName path)).1
        (pySplitExt (pathName path)).2 (fsEntryCount fs + 1) 1 hex' with ⟨k, hk1, hk2, hk3, hk4⟩
    have hval : get_unique_path fs path = path.dropLast ++
        [variantName (pySplitExt (pathName path)).1 (pySplitExt (pathName path)).2 k] := by
      unfold get_unique_path
      rw [if_pos hp]
      exact hk2
    refine ⟨(fun h => False.elim (by rw [h] at hp; cases hp)), fun _ => ⟨k, hk1, hval, hk3, hk4⟩, ?_⟩
    rw [hval]
    exact hk3
  · have hp' : fs.pexists path = false := by
      revert hp
      cases fs.pexists path <;> simp
    have hval : get_unique_path fs path = path := by
      unfold get_unique_path
      rw [if_neg hp]
    exact ⟨fun _ => hval, (fun h => False.elim (by rw [h] at hp'; cases hp')), (by rw [hval]; exact hp')⟩

/-- C3: `_get_unique_path` returns the candidate unchanged when nothing exists
at it; otherwise it returns `parent / (stem ++ "_" ++ k ++ suffix)` for the
smallest `k ≥ 1` whose path does not exist; in every case the returned path
does not exist at call time. -/
theorem C3_get_unique_path (fs : FS) (path : FPath) :
    (fs.pexists path = false → get_unique_path fs path = path) ∧
    (fs.pexists path = true → ∃ k, 1 ≤ k ∧
      get_unique_path fs path = path.dropLast ++
        [variantName (pySplitExt (pathName path)).1 (pySplitExt (pathName path)).2 k] ∧
      fs.pexists (path.dropLast ++
        [variantName (pySplitExt (pathName path)).1 (pySplitExt (pathName path)).2 k]) = false ∧
      ∀ j, 1 ≤ j → j < k → fs.pexists (path.dropLast ++
        [variantName (pySplitExt (pathName path)).1 (pySplitExt (pathName path)).2 j]) = true) ∧
    fs.pexists (get_unique_path fs path) = false :=
  get_unique_path_spec fs path

/-- C3 witness: with `a.jpg` and `a_1.jpg` present, the allocator returns the
nonexistent `a_2.jpg`, skipping the occupied variants. -/
theorem C3_get_unique_path_witness :
    (FS.mk [(["d", "a.jpg"], FContent.media 1), (["d", "a_1.jpg"], FContent.media 2)] [] []).pexists
      ["d", "a.jpg"] = true ∧
    ∃ k, 1 ≤ k ∧
      get_unique_path
        (FS.mk [(["d", "a.jpg"], FContent.media 1), (["d", "a_1.jpg"], FContent.media 2)] [] [])
        ["d", "a.jpg"] = ["d", "a.jpg"].dropLast ++
        [variantName (pySplitExt (pathName ["d", "a.jpg"])).1
          (pySplitExt (pathName ["d", "a.jpg"])).2 k] ∧
      (FS.mk [(["d", "a.jpg"], FContent.media 1), (["d", "a_1.jpg"], FContent.media 2)] [] []).pexists
        (["d", "a.jpg"].dropLast ++ [variantName (pySplitExt (pathName ["d", "a.jpg"])).1
          (pySplitExt (pathName ["d", "a.jpg"])).2 k]) = false ∧
      ∀ j, 1 ≤ j → j < k →
        (FS.mk [(["d", "a.jpg"], FContent.media 1), (["d", "a_1.jpg"], FContent.media 2)] [] []).pexists
          (["d", "a.jpg"].dropLast ++ [variantName (pySplitExt (pathName ["d", "a.jpg"])).1
            (pySplitExt (pathName ["d", "a.jpg"])).2 j]) = true :=
  ⟨by decide,
   (C3_get_unique_path
     (FS.mk [(["d", "a.jpg"], FContent.media 1), (["d", "a_1.jpg"], FContent.media 2)] [] [])
     ["d", "a.jpg"]).2.1 (by decide)⟩

/-! Scan pipeline characterization lemmas. -/

theorem procStep_fold_errors : ∀ (cs : List Candidate) (acc : ScanAcc),
    (cs.foldl procStep acc).errors = acc.errors ++ cs.filterMap failMsg := by
  intro cs
  induction cs with
  | nil => intro acc; simp
  | cons c cs ih =>
    intro acc
    simp only [List.foldl_cons, List.filterMap_cons]
    cases hoc : c.outcome with
    | statFail e =>
      rw [ih]
      simp [procStep, hoc, failMsg]
    | hashFail sz e =>
      rw [ih]
      simp [procStep, hoc, failMsg]
    | ok sz sha =>
      rw [ih]
      simp [procStep, hoc, failMsg]

theorem procStep_fold_groups : ∀ (cs : List Candidate) (acc : ScanAcc),
    (cs.foldl procStep acc).hash_groups =
      (cs.filterMap okMedia).foldl (fun gs m => updateBucket gs m.sha256 m) acc.hash_groups := by
  intro cs
  induction cs with
  | nil => intro acc; simp
  | cons c cs ih =>
    intro acc
    simp only [List.foldl_cons, List.filterMap_cons]
    cases hoc : c.outcome with
    | statFail e => rw [ih]; simp only [procStep, hoc, okMedia]
    | hashFail sz e => rw [ih]; simp only [procStep, hoc, okMedia]
    | ok sz sha =>
      rw [ih]
      simp only [procStep, hoc, okMedia, List.foldl_cons, mkMediaFile]

theorem bool_eq_false {b : Bool} (h : ¬ b = true) : b = false := by
  cases b
  · rfl
  · exact absurd rfl h

theorem bucketFind_updateBucket_self : ∀ (gs : List (String × List MediaFile))
    (sha : String) (m : MediaFile),
    bucketFind (updateBucket gs sha m) sha =
      match bucketFind gs sha with
      | some l => some (l ++ [m])
      | none => some [m] := by
  intro gs
  induction gs with
  | nil =>
    intro sha m
    simp [updateBucket, bucketFind]
  | cons e rest ih =>
    intro sha m
    by_cases he : (e.1 == sha) = true
    · have h1 : updateBucket (e :: rest) sha m = (e.1, e.2 ++ [m]) :: rest := by
        rw [updateBucket, if_pos he]
      rw [h1]
      unfold bucketFind
      simp only [List.find?_cons, he]
      rfl
    · have he' : (e.1 == sha) = false := bool_eq_false he
      have h1 : updateBucket (e :: rest) sha m = e :: updateBucket rest sha m := by
        rw [updateBucket, if_neg he]
      rw [h1]
      unfold bucketFind
      simp only [List.find?_cons, he']
      exact ih sha m

theorem bucketFind_updateBucket_other : ∀ (gs : List (String × List MediaFile))
    (sha sha' : String) (m : MediaFile), sha' ≠ sha →
    bucketFind (updateBucket gs sha m) sha' = bucketFind gs sha' := by
  intro gs
  induction gs with
  | nil =>
    intro sha sha' m hne
    have hb : (sha == sha') = false := by
      rw [beq_eq_false_iff_ne]
      exact fun h => hne h.symm
    simp [updateBucket, bucketFind, List.find?_cons, hb]
  | cons e rest ih =>
    intro sha sha' m hne
    by_cases he : (e.1 == sha) = true
    · have hkey : e.1 = sha := eq_of_beq he
      have hne2 : (e.1 == sha') = false := by
        rw [beq_eq_false_iff_ne, hkey]
        exact fun h => hne h.symm
      have h1 : updateBucket (e :: rest) sha m = (e.1, e.2 ++ [m]) :: rest := by
        rw [updateBucket, if_pos he]
      rw [h1]
      unfold bucketFind
      simp only [List.find?_cons, hne2]
    · have he' : (e.1 == sha) = false := bool_eq_false he
      have h1 : updateBucket (e :: rest) sha m = e :: updateBucket rest sha m := by
        rw [updateBucket, if_neg he]
      rw [h1]
      unfold bucketFind
      cases hc : (e.1 == sha') with
      | true => simp only [List.find?_cons, hc]
      | false =>
        simp only [List.find?_cons, hc]
        exact ih sha sha' m hne

theorem bucketFind_fold : ∀ (ms : List MediaFile) (gs : List (String × List MediaFile))
    (sha : String),
    bucketFind (ms.foldl (fun gs m => updateBucket gs m.sha256 m) gs) sha =
      match bucketFind gs sha with
      | some l => some (l ++ ms.filter (fun m => m.sha256 == sha))
      | none =>
        if ms.filter (fun m => m.sha256 == sha) = [] then none
        else some (ms.filter (fun m => m.sha256 == sha)) := by
  intro ms
  induction ms with
  | nil =>
    intro gs sha
    simp only [List.foldl_nil, List.filter_nil]
    cases hb : bucketFind gs sha with
    | some l => simp
    | none => simp
  | cons m ms ih =>
    intro gs sha
    simp only [List.foldl_cons, List.filter_cons]
    by_cases hm : (m.sha256 == sha) = true
    · have hs : m.sha256 = sha := eq_of_beq hm
      subst hs
      rw [ih]
      rw [bucketFind_updateBucket_self]
      cases hb : bucketFind gs m.sha256 with
      | some l => simp
      | none => simp
    · have hm' : (m.sha256 == sha) = false := bool_eq_false hm
      have hne : sha ≠ m.sha256 := by
        intro h
        rw [beq_eq_false_iff_ne] at hm'
        exact hm' h.symm
      rw [ih, bucketFind_updateBucket_other gs m.sha256 sha m hne]
      simp only [hm']
      rfl

theorem sumLens_updateBucket : ∀ (gs : List (String × List MediaFile)) (sha : String)
    (m : MediaFile), sumLens (updateBucket gs sha m) = sumLens gs + 1 := by
  intro gs
  induction gs with
  | nil => intro sha m; simp [updateBucket, sumLens]
  | cons e rest ih =>
    intro sha m
    by_cases he : (e.1 == sha) = true
    · rw [updateBucket, if_pos he]
      simp [sumLens]
      omega
    · rw [updateBucket, if_neg he]
      simp only [sumLens, List.map_cons, List.sum_cons] at ih ⊢
      rw [ih sha m]
      omega

theorem sumLens_fold : ∀ (ms : List MediaFile) (gs : List (String × List MediaFile)),
    sumLens (ms.foldl (fun gs m => updateBucket gs m.sha256 m) gs) = sumLens gs + ms.length := by
  intro ms
  induction ms with
  | nil => intro gs; simp
  | cons m ms ih =>
    intro gs
    simp only [List.foldl_cons, List.length_cons]
    rw [ih, sumLens_updateBucket]
    omega

theorem updateBucket_vals_ne_nil : ∀ (gs : List (String × List MediaFile)) (sha : String)
    (m : MediaFile), (∀ e ∈ gs, e.2 ≠ []) → ∀ e ∈ updateBucket gs sha m, e.2 ≠ [] := by
  intro gs
  induction gs with
  | nil =>
    intro sha m _ e he
    simp only [updateBucket, List.mem_singleton] at he
    subst he
    simp
  | cons x rest ih =>
    intro sha m hall e he
    by_cases hx : (x.1 == sha) = true
    · rw [updateBucket, if_pos hx] at he
      rcases List.mem_cons.1 he with h | h
      · subst h
        simp only [ne_eq, List.append_eq_nil]
        intro hc
        exact hall x (List.mem_cons_self x rest) (by simp [hc.1])
      · exact hall e (List.mem_cons_of_mem x h)
    · rw [updateBucket, if_neg hx] at he
      rcases List.mem_cons.1 he with h | h
      · subst h
        exact hall e (List.mem_cons_self e rest)
      · exact ih sha m (fun e' he' => hall e' (List.mem_cons_of_mem x he')) e h

theorem fold_vals_ne_nil : ∀ (ms : List MediaFile) (gs : List (String × List MediaFile)),
    (∀ e ∈ gs, e.2 ≠ []) →
    ∀ e ∈ ms.foldl (fun gs m => updateBucket gs m.sha256 m) gs, e.2 ≠ [] := by
  intro ms
  induction ms with
  | nil => intro gs h; exact h
  | cons m ms ih =>
    intro gs h
    simp only [List.foldl_cons]
    exact ih _ (updateBucket_vals_ne_nil gs m.sha256 m h)

theorem classify_count : ∀ (gs : List (String × List MediaFile)),
    (∀ e ∈ gs, e.2 ≠ []) →
    (classifyBuckets gs).1.length +
      ((classifyBuckets gs).2.map (fun g => g.files.length)).sum = sumLens gs := by
  intro gs
  induction gs with
  | nil => intro _; simp [classifyBuckets, sumLens]
  | cons e rest ih =>
    intro hall
    have hrest := ih (fun e' he' => hall e' (List.mem_cons_of_mem e he'))
    rcases e with ⟨sha, fsl⟩
    cases fsl with
    | nil => exact absurd rfl (hall (sha, []) (List.mem_cons_self _ rest))
    | cons f0 fs =>
      cases fs with
      | nil =>
        have hstep : classifyBuckets ((sha, [f0]) :: rest) =
            (f0 :: (classifyBuckets rest).1, (classifyBuckets rest).2) := rfl
        rw [hstep]
        simp only [sumLens, List.map_cons, List.sum_cons, List.length_cons, List.length_nil]
        simp only [sumLens] at hrest
        omega
      | cons f1 frest =>
        have hstep : classifyBuckets ((sha, f0 :: f1 :: frest) :: rest) =
            ((classifyBuckets rest).1,
              markGroup sha f0 (f1 :: frest) :: (classifyBuckets rest).2) := rfl
        rw [hstep]
        simp only [sumLens, List.map_cons, List.sum_cons, List.length_cons, markGroup,
          List.length_map, List.length_nil]
        simp only [sumLens] at hrest
        omega

theorem bucketFind_mem : ∀ (gs : List (String × List MediaFile)) (sha : String)
    (l : List MediaFile), bucketFind gs sha = some l → (sha, l) ∈ gs := by
  intro gs
  induction gs with
  | nil => intro sha l h; simp [bucketFind] at h
  | cons e rest ih =>
    intro sha l h
    unfold bucketFind at h
    cases hc : (e.1 == sha) with
    | true =>
      simp only [List.find?_cons, hc] at h
      have hkey : e.1 = sha := eq_of_beq hc
      have hval : e.2 = l := by
        simpa using h
      exact List.mem_cons.2 (Or.inl (by rw [← hkey, ← hval]))
    | false =>
      simp only [List.find?_cons, hc] at h
      exact List.mem_cons_of_mem e (ih sha l h)

theorem updateBucket_keys_sub : ∀ (gs : List (String × List MediaFile)) (sha : String)
    (m : MediaFile) (x : String),
    x ∈ (updateBucket gs sha m).map (fun e => e.1) →
    x ∈ gs.map (fun e => e.1) ∨ x = sha := by
  intro gs
  induction gs with
  | nil =>
    intro sha m x hx
    simp only [updateBucket, List.map_cons, List.map_nil, List.mem_singleton] at hx
    exact Or.inr hx
  | cons e rest ih =>
    intro sha m x hx
    by_cases he : (e.1 == sha) = true
    · rw [updateBucket, if_pos he] at hx
      simp only [List.map_cons, List.mem_cons] at hx ⊢
      rcases hx with h | h
      · exact Or.inl (Or.inl h)
      · exact Or.inl (Or.inr h)
    · rw [updateBucket, if_neg he] at hx
      simp only [List.map_cons, List.mem_cons] at hx ⊢
      rcases hx with h | h
      · exact Or.inl (Or.inl h)
      · rcases ih sha m x h with h2 | h2
        · exact Or.inl (Or.inr h2)
        · exact Or.inr h2

theorem updateBucket_keys_nodup : ∀ (gs : List (String × List MediaFile)) (sha : String)
    (m : MediaFile), (gs.map (fun e => e.1)).Nodup →
    ((updateBucket gs sha m).map (fun e => e.1)).Nodup := by
  intro gs
  induction gs with
  | nil => intro sha m _; simp [updateBucket]
  | cons e rest ih =>
    intro sha m hnd
    simp only [List.map_cons, List.nodup_cons] at hnd
    by_cases he : (e.1 == sha) = true
    · rw [updateBucket, if_pos he]
      simp only [List.map_cons, List.nodup_cons]
      exact hnd
    · rw [updateBucket, if_neg he]
      simp only [List.map_cons, List.nodup_cons]
      refine ⟨?_, ih sha m hnd.2⟩
      intro hc
      rcases updateBucket_keys_sub rest sha m e.1 hc with h | h
      · exact hnd.1 h
      · exact he (by rw [h]; exact beq_self_eq_true sha)

theorem fold_keys_nodup : ∀ (ms : List MediaFile) (gs : List (String × List MediaFile)),
    (gs.map (fun e => e.1)).Nodup →
    ((ms.foldl (fun gs m => updateBucket gs m.sha256 m) gs).map (fun e => e.1)).Nodup := by
  intro ms
  induction ms with
  | nil => intro gs h; exact h
  | cons m ms ih =>
    intro gs h
    simp only [List.foldl_cons]
    exact ih _ (updateBucket_keys_nodup gs m.sha256 m h)

theorem entry_bucketFind : ∀ (gs : List (String × List MediaFile)),
    (gs.map (fun e => e.1)).Nodup →
    ∀ (sha : String) (l : List MediaFile), (sha, l) ∈ gs → bucketFind gs sha = some l := by
  intro gs
  induction gs with
  | nil => intro _ sha l h; simp at h
  | cons e rest ih =>
    intro hnd sha l h
    simp only [List.map_cons, List.nodup_cons] at hnd
    rcases List.mem_cons.1 h with hh | hh
    · subst hh
      unfold bucketFind
      rw [List.find?_cons]
      simp
    · have hne : (e.1 == sha) = false := by
        rw [beq_eq_false_iff_ne]
        intro hc
        apply hnd.1
        rw [hc]
        exact List.mem_map.2 ⟨(sha, l), hh, rfl⟩
      unfold bucketFind
      simp only [List.find?_cons, hne]
      exact ih hnd.2 sha l hh

theorem classify_unique_of_mem : ∀ (gs : List (String × List MediaFile)) (sha : String)
    (f : MediaFile), (sha, [f]) ∈ gs → f ∈ (classifyBuckets gs).1 := by
  intro gs
  induction gs with
  | nil => intro sha f h; simp at h
  | cons e rest ih =>
    intro sha f h
    rcases List.mem_cons.1 h with hh | hh
    · rw [← hh]
      have hstep : classifyBuckets ((sha, [f]) :: rest) =
          (f :: (classifyBuckets rest).1, (classifyBuckets rest).2) := rfl
      rw [hstep]
      exact List.mem_cons_self f _
    · rcases e with ⟨sha', fsl⟩
      cases fsl with
      | nil => exact ih sha f hh
      | cons f0 fs =>
        cases fs with
        | nil =>
          have hstep : classifyBuckets ((sha', [f0]) :: rest) =
              (f0 :: (classifyBuckets rest).1, (classifyBuckets rest).2) := rfl
          rw [hstep]
          exact List.mem_cons_of_mem f0 (ih sha f hh)
        | cons f1 frest =>
          have hstep : classifyBuckets ((sha', f0 :: f1 :: frest) :: rest) =
              ((classifyBuckets rest).1,
                markGroup sha' f0 (f1 :: frest) :: (classifyBuckets rest).2) := rfl
          rw [hstep]
          exact ih sha f hh

theorem classify_group_of_mem : ∀ (gs : List (String × List MediaFile)) (sha : String)
    (f0 f1 : MediaFile) (rest : List MediaFile), (sha, f0 :: f1 :: rest) ∈ gs →
    markGroup sha f0 (f1 :: rest) ∈ (classifyBuckets gs).2 := by
  intro gs
  induction gs with
  | nil => intro sha f0 f1 rest h; simp at h
  | cons e buckets ih =>
    intro sha f0 f1 rest h
    rcases List.mem_cons.1 h with hh | hh
    · rw [← hh]
      have hstep : classifyBuckets ((sha, f0 :: f1 :: rest) :: buckets) =
          ((classifyBuckets buckets).1,
            markGroup sha f0 (f1 :: rest) :: (classifyBuckets buckets).2) := rfl
      rw [hstep]
      exact List.mem_cons_self _ _
    · rcases e with ⟨sha', fsl⟩
      cases fsl with
      | nil => exact ih sha f0 f1 rest hh
      | cons g0 gsl =>
        cases gsl with
        | nil =>
          have hstep : classifyBuckets ((sha', [g0]) :: buckets) =
              (g0 :: (classifyBuckets buckets).1, (classifyBuckets buckets).2) := rfl
          rw [hstep]
          exact ih sha f0 f1 rest hh
        | cons g1 grest =>
          have hstep : classifyBuckets ((sha', g0 :: g1 :: grest) :: buckets) =
              ((classifyBuckets buckets).1,
                markGroup sha' g0 (g1 :: grest) :: (classifyBuckets buckets).2) := rfl
          rw [hstep]
          exact List.mem_cons_of_mem _ (ih sha f0 f1 rest hh)

theorem classify_unique_sub : ∀ (gs : List (String × List MediaFile)) (f : MediaFile),
    f ∈ (classifyBuckets gs).1 → ∃ e ∈ gs, f ∈ e.2 := by
  intro gs
  induction gs with
  | nil => intro f h; simp [classifyBuckets] at h
  | cons e buckets ih =>
    intro f h
    rcases e with ⟨sha', fsl⟩
    cases fsl with
    | nil =>
      rcases ih f h with ⟨e', he', hf⟩
      exact ⟨e', List.mem_cons_of_mem _ he', hf⟩
    | cons f0 fs =>
      cases fs with
      | nil =>
        have hstep : classifyBuckets ((sha', [f0]) :: buckets) =
            (f0 :: (classifyBuckets buckets).1, (classifyBuckets buckets).2) := rfl
        rw [hstep] at h
        rcases List.mem_cons.1 h with hh | hh
        · exact ⟨(sha', [f0]), List.mem_cons_self _ _, by rw [hh]; exact List.mem_singleton_self f0⟩
        · rcases ih f hh with ⟨e', he', hf⟩
          exact ⟨e', List.mem_cons_of_mem _ he', hf⟩
      | cons f1 frest =>
        have hstep : classifyBuckets ((sha', f0 :: f1 :: frest) :: buckets) =
            ((classifyBuckets buckets).1,
              markGroup sha' f0 (f1 :: frest) :: (classifyBuckets buckets).2) := rfl
        rw [hstep] at h
        rcases ih f h with ⟨e', he', hf⟩
        exact ⟨e', List.mem_cons_of_mem _ he', hf⟩

theorem markGroup_paths (sha : String) (f0 : MediaFile) (rest : List MediaFile) :
    (markGroup sha f0 rest).files.map (fun f => f.path) =
      (f0 :: rest).map (fun f => f.path) := by
  simp only [markGroup, List.map_cons, List.map_map]
  rfl

theorem classify_groups_sub : ∀ (gs : List (String × List MediaFile)) (g : DuplicateGroup),
    g ∈ (classifyBuckets gs).2 →
    ∃ e ∈ gs, g.files.map (fun f => f.path) = e.2.map (fun f => f.path) := by
  intro gs
  induction gs with
  | nil => intro g h; simp [classifyBuckets] at h
  | cons e buckets ih =>
    intro g h
    rcases e with ⟨sha', fsl⟩
    cases fsl with
    | nil =>
      rcases ih g h with ⟨e', he', hf⟩
      exact ⟨e', List.mem_cons_of_mem _ he', hf⟩
    | cons f0 fs =>
      cases fs with
      | nil =>
        have hstep : classifyBuckets ((sha', [f0]) :: buckets) =
            (f0 :: (classifyBuckets buckets).1, (classifyBuckets buckets).2) := rfl
        rw [hstep] at h
        rcases ih g h with ⟨e', he', hf⟩
        exact ⟨e', List.mem_cons_of_mem _ he', hf⟩
      | cons f1 frest =>
        have hstep : classifyBuckets ((sha', f0 :: f1 :: frest) :: buckets) =
            ((classifyBuckets buckets).1,
              markGroup sha' f0 (f1 :: frest) :: (classifyBuckets buckets).2) := rfl
        rw [hstep] at h
        rcases List.mem_cons.1 h with hh | hh
        · refine ⟨(sha', f0 :: f1 :: frest), List.mem_cons_self _ _, ?_⟩
          rw [hh]
          exact markGroup_paths sha' f0 (f1 :: frest)
        · rcases ih g hh with ⟨e', he', hf⟩
          exact ⟨e', List.mem_cons_of_mem _ he', hf⟩

theorem scan_unique_eq (roots : List Root) :
    (scan_folders roots).unique_files =
      (classifyBuckets (((allCandidates roots).filterMap okMedia).foldl
        (fun gs m => updateBucket gs m.sha256 m) [])).1 := by
  simp only [scan_folders]
  rw [procStep_fold_groups]

theorem scan_groups_eq (roots : List Root) :
    (scan_folders roots).duplicate_groups =
      (classifyBuckets (((allCandidates roots).filterMap okMedia).foldl
        (fun gs m => updateBucket gs m.sha256 m) [])).2 := by
  simp only [scan_folders]
  rw [procStep_fold_groups]

theorem scan_errors_eq (roots : List Root) :
    (scan_folders roots).errors = rootErrors roots ++ (allCandidates roots).filterMap failMsg := by
  simp only [scan_folders]
  rw [procStep_fold_errors]

theorem scan_total_eq (roots : List Root) :
    (scan_folders roots).total_files = (allCandidates roots).length := by
  simp only [scan_folders]

theorem scan_bucketFind (roots : List Root) (sha : String) :
    bucketFind (((allCandidates roots).filterMap okMedia).foldl
        (fun gs m => updateBucket gs m.sha256 m) []) sha =
      (if ((allCandidates roots).filterMap okMedia).filter (fun m => m.sha256 == sha) = []
       then none
       else some (((allCandidates roots).filterMap okMedia).filter
         (fun m => m.sha256 == sha))) := by
  have h := bucketFind_fold ((allCandidates roots).filterMap okMedia) [] sha
  have hnil : bucketFind [] sha = none := rfl
  rw [hnil] at h
  exact h

theorem okMedia_fail_partition : ∀ cs : List Candidate,
    (cs.filterMap okMedia).length + (cs.filter (fun c => !c.outcome.isOk)).length = cs.length := by
  intro cs
  induction cs with
  | nil => simp
  | cons c cs ih =>
    rw [List.filterMap_cons, List.filter_cons]
    by_cases hok : c.outcome.isOk = true
    · have h1 : ∃ m, okMedia c = some m := by
        cases hoc : c.outcome with
        | ok sz sha => exact ⟨mkMediaFile c.path sz sha, by simp [okMedia, hoc]⟩
        | statFail e => rw [hoc] at hok; simp [ProcOutcome.isOk] at hok
        | hashFail sz e => rw [hoc] at hok; simp [ProcOutcome.isOk] at hok
      rcases h1 with ⟨m, hm⟩
      rw [hm, if_neg (by simp [hok])]
      simp only [List.length_cons]
      omega
    · have h1 : okMedia c = none := by
        cases hoc : c.outcome with
        | ok sz sha => rw [hoc] at hok; exact absurd rfl hok
        | statFail e => simp [okMedia, hoc]
        | hashFail sz e => simp [okMedia, hoc]
      rw [h1, if_pos (by simp [bool_eq_false hok])]
      simp only [List.length_cons]
      omega

/-- C2 (amended): `total_files` counts every enumerated candidate, including
the ones whose processing raised, so in general
`total_files = len(unique_files) + sum(len(g.files)) + number of per-file
processing errors`; the claim's equality holds exactly when no per-file
processing error occurs (the counterexample shows one failing file breaks
it). -/
theorem C2_total_files_partition (roots : List Root) :
    (scan_folders roots).total_files =
      (scan_folders roots).unique_files.length +
      ((scan_folders roots).duplicate_groups.map (fun g => g.files.length)).sum +
      ((allCandidates roots).filter (fun c => !c.outcome.isOk)).length := by
  rw [scan_total_eq, scan_unique_eq, scan_groups_eq]
  have hcount := classify_count
    (((allCandidates roots).filterMap okMedia).foldl
      (fun gs m => updateBucket gs m.sha256 m) [])
    (fold_vals_ne_nil _ [] (by intro e he; simp at he))
  have hsum := sumLens_fold ((allCandidates roots).filterMap okMedia) []
  have hzero : sumLens ([] : List (String × List MediaFile)) = 0 := rfl
  rw [hzero] at hsum
  rw [hcount, hsum]
  have := okMedia_fail_partition (allCandidates roots)
  omega

/-- C2 counterexample: one enumerated candidate whose `stat` raises is counted
in `total_files` but lands in neither `unique_files` nor any group, so the
claimed equality fails. -/
theorem C2_total_files_partition_cex :
    ¬ ((scan_folders [Root.mk ["r"] true [Candidate.mk ["r", "x.jpg"]
          (ProcOutcome.statFail "boom")]]).total_files =
        (scan_folders [Root.mk ["r"] true [Candidate.mk ["r", "x.jpg"]
          (ProcOutcome.statFail "boom")]]).unique_files.length +
        ((scan_folders [Root.mk ["r"] true [Candidate.mk ["r", "x.jpg"]
          (ProcOutcome.statFail "boom")]]).duplicate_groups.map
            (fun g => g.files.length)).sum) := by
  decide

/-- C6: a digest bucket of size 1 contributes its sole file to
`unique_files`; a bucket of size at least 2 becomes the `DuplicateGroup`
`markGroup sha first rest`, whose keep-selection is the first member's path
(in processing order), whose member order matches processing order, and whose
non-first members are marked `is_duplicate` with `duplicate_of` pointing at
the first member. -/
theorem C6_bucket_classification (roots : List Root) (sha : String) :
    (∀ f, ((allCandidates roots).filterMap okMedia).filter (fun m => m.sha256 == sha) = [f] →
      f ∈ (scan_folders roots).unique_files) ∧
    (∀ f0 f1 rest,
      ((allCandidates roots).filterMap okMedia).filter (fun m => m.sha256 == sha) =
        f0 :: f1 :: rest →
      markGroup sha f0 (f1 :: rest) ∈ (scan_folders roots).duplicate_groups ∧
      (markGroup sha f0 (f1 :: rest)).selected_to_keep = some f0.path ∧
      (markGroup sha f0 (f1 :: rest)).files.map (fun f => f.path) =
        (f0 :: f1 :: rest).map (fun f => f.path) ∧
      ∀ f ∈ (markGroup sha f0 (f1 :: rest)).files.tail,
        f.is_duplicate = true ∧ f.duplicate_of = some f0.path) := by
  constructor
  · intro f hbf
    have hfind := scan_bucketFind roots sha
    rw [hbf] at hfind
    rw [if_neg (by simp)] at hfind
    have hmem := bucketFind_mem _ sha [f] hfind
    rw [scan_unique_eq]
    exact classify_unique_of_mem _ sha f hmem
  · intro f0 f1 rest hbf
    have hfind := scan_bucketFind roots sha
    rw [hbf] at hfind
    rw [if_neg (by simp)] at hfind
    have hmem := bucketFind_mem _ sha (f0 :: f1 :: rest) hfind
    refine ⟨?_, rfl, markGroup_paths sha f0 (f1 :: rest), ?_⟩
    · rw [scan_groups_eq]
      exact classify_group_of_mem _ sha f0 f1 rest hmem
    · intro f hf
      simp only [markGroup, List.tail_cons] at hf
      rcases List.mem_map.1 hf with ⟨m, _, rfl⟩
      exact ⟨rfl, rfl⟩

/-- C6 witness: two identical-digest files form a group keeping the first in
processing order with the second marked, and a singleton digest lands in
`unique_files`. -/
theorem C6_bucket_classification_witness :
    (mkMediaFile ["r", "u.jpg"] 7 "u" ∈ (scan_folders [Root.mk ["r"] true
      [Candidate.mk ["r", "a.jpg"] (ProcOutcome.ok 5 "h"),
       Candidate.mk ["r", "b.jpg"] (ProcOutcome.ok 5 "h"),
       Candidate.mk ["r", "u.jpg"] (ProcOutcome.ok 7 "u")]]).unique_files) ∧
    (markGroup "h" (mkMediaFile ["r", "a.jpg"] 5 "h") [mkMediaFile ["r", "b.jpg"] 5 "h"] ∈
      (scan_folders [Root.mk ["r"] true
        [Candidate.mk ["r", "a.jpg"] (ProcOutcome.ok 5 "h"),
         Candidate.mk ["r", "b.jpg"] (ProcOutcome.ok 5 "h"),
         Candidate.mk ["r", "u.jpg"] (ProcOutcome.ok 7 "u")]]).duplicate_groups ∧
      (markGroup "h" (mkMediaFile ["r", "a.jpg"] 5 "h")
        [mkMediaFile ["r", "b.jpg"] 5 "h"]).selected_to_keep =
          some (mkMediaFile ["r", "a.jpg"] 5 "h").path ∧
      (markGroup "h" (mkMediaFile ["r", "a.jpg"] 5 "h")
        [mkMediaFile ["r", "b.jpg"] 5 "h"]).files.map (fun f => f.path) =
        ([mkMediaFile ["r", "a.jpg"] 5 "h", mkMediaFile ["r", "b.jpg"] 5 "h"]).map
          (fun f => f.path) ∧
      ∀ f ∈ (markGroup "h" (mkMediaFile ["r", "a.jpg"] 5 "h")
          [mkMediaFile ["r", "b.jpg"] 5 "h"]).files.tail,
        f.is_duplicate = true ∧ f.duplicate_of = some (mkMediaFile ["r", "a.jpg"] 5 "h").path) :=
  ⟨(C6_bucket_classification [Root.mk ["r"] true
      [Candidate.mk ["r", "a.jpg"] (ProcOutcome.ok 5 "h"),
       Candidate.mk ["r", "b.jpg"] (ProcOutcome.ok 5 "h"),
       Candidate.mk ["r", "u.jpg"] (ProcOutcome.ok 7 "u")]] "u").1
    (mkMediaFile ["r", "u.jpg"] 7 "u") (by decide),
   (C6_bucket_classification [Root.mk ["r"] true
      [Candidate.mk ["r", "a.jpg"] (ProcOutcome.ok 5 "h"),
       Candidate.mk ["r", "b.jpg"] (ProcOutcome.ok 5 "h"),
       Candidate.mk ["r", "u.jpg"] (ProcOutcome.ok 7 "u")]] "h").2
    (mkMediaFile ["r", "a.jpg"] 5 "h") (mkMediaFile ["r", "b.jpg"] 5 "h") [] (by decide)⟩

theorem mem_processed_path (cs : List Candidate) (f : MediaFile)
    (h : f ∈ cs.filterMap okMedia) :
    ∃ c ∈ cs, c.outcome.isOk = true ∧ f.path = c.path := by
  rcases List.mem_filterMap.1 h with ⟨c, hc, hok⟩
  refine ⟨c, hc, ?_⟩
  cases hoc : c.outcome with
  | ok sz sha =>
    simp only [okMedia, hoc] at hok
    have hf : f = mkMediaFile c.path sz sha := by
      cases hok
      rfl
    rw [hf]
    exact ⟨rfl, rfl⟩
  | statFail e =>
    simp only [okMedia, hoc] at hok
    exact Option.noConfusion hok
  | hashFail sz e =>
    simp only [okMedia, hoc] at hok
    exact Option.noConfusion hok

theorem fold_entry_filter (roots : List Root) (e : String × List MediaFile)
    (he : e ∈ ((allCandidates roots).filterMap okMedia).foldl
      (fun gs m => updateBucket gs m.sha256 m) []) :
    e.2 = ((allCandidates roots).filterMap okMedia).filter (fun m => m.sha256 == e.1) := by
  have hnd := fold_keys_nodup ((allCandidates roots).filterMap okMedia) [] (by simp)
  have hfind := entry_bucketFind _ hnd e.1 e.2 he
  rw [scan_bucketFind] at hfind
  by_cases hf : ((allCandidates roots).filterMap okMedia).filter (fun m => m.sha256 == e.1) = []
  · rw [if_pos hf] at hfind
    cases hfind
  · rw [if_neg hf] at hfind
    exact (Option.some_inj.1 hfind).symm

/-- C5: per-file exceptions during the scan's hashing pass are caught at that
file's boundary: the error list is exactly the missing-folder errors followed
by one formatted message (containing the file's path) per failing candidate in
processing order; the failing file contributes its message and appears in
neither `unique_files` nor any duplicate group; processing of the other
candidates continues (the scan is a total function of the candidate list). -/
theorem C5_per_file_error_isolation (roots : List Root) (c : Candidate)
    (hc : c ∈ allCandidates roots) (hfail : c.outcome.isOk = false)
    (huniq : ∀ c2 ∈ allCandidates roots, c2.path = c.path → c2 = c) :
    (scan_folders roots).errors =
      rootErrors roots ++ (allCandidates roots).filterMap failMsg ∧
    (∃ e, failMsg c = some (procMsg c.path e) ∧
      procMsg c.path e ∈ (scan_folders roots).errors) ∧
    (∀ f ∈ (scan_folders roots).unique_files, f.path ≠ c.path) ∧
    (∀ g ∈ (scan_folders roots).duplicate_groups, ∀ f ∈ g.files, f.path ≠ c.path) := by
  have hprocessed : ∀ f ∈ (allCandidates roots).filterMap okMedia, f.path ≠ c.path := by
    intro f hf heq
    rcases mem_processed_path (allCandidates roots) f hf with ⟨c', hc', hok, hpath⟩
    have : c' = c := huniq c' hc' (by rw [← hpath, heq])
    rw [this] at hok
    rw [hok] at hfail
    cases hfail
  refine ⟨scan_errors_eq roots, ?_, ?_, ?_⟩
  · have hmsg : ∃ e, failMsg c = some (procMsg c.path e) := by
      cases hoc : c.outcome with
      | statFail e => exact ⟨e, by simp [failMsg, hoc]⟩
      | hashFail sz e => exact ⟨e, by simp [failMsg, hoc]⟩
      | ok sz sha => rw [hoc] at hfail; cases hfail
    rcases hmsg with ⟨e, hmsg⟩
    refine ⟨e, hmsg, ?_⟩
    rw [scan_errors_eq]
    exact List.mem_append_right _ (List.mem_filterMap.2 ⟨c, hc, hmsg⟩)
  · intro f hf heq
    rw [scan_unique_eq] at hf
    rcases classify_unique_sub _ f hf with ⟨en, hen, hfe⟩
    rw [fold_entry_filter roots en hen] at hfe
    exact hprocessed f (List.mem_of_mem_filter hfe) heq
  · intro g hg f hf heq
    rw [scan_groups_eq] at hg
    rcases classify_groups_sub _ g hg with ⟨en, hen, hmapeq⟩
    have hfp : f.path ∈ en.2.map (fun f => f.path) := by
      rw [← hmapeq]
      exact List.mem_map_of_mem _ hf
    rcases List.mem_map.1 hfp with ⟨m, hm, hmp⟩
    rw [fold_entry_filter roots en hen] at hm
    exact hprocessed m (List.mem_of_mem_filter hm) (by rw [hmp, heq])

/-- C5 witness: a failing candidate next to a successful one contributes
exactly its formatted message and is excluded from the classification. -/
theorem C5_per_file_error_isolation_witness :
    ((scan_folders [Root.mk ["r"] true
        [Candidate.mk ["r", "bad.jpg"] (ProcOutcome.hashFail 3 "boom"),
         Candidate.mk ["r", "ok.jpg"] (ProcOutcome.ok 5 "h")]]).errors =
      rootErrors [Root.mk ["r"] true
        [Candidate.mk ["r", "bad.jpg"] (ProcOutcome.hashFail 3 "boom"),
         Candidate.mk ["r", "ok.jpg"] (ProcOutcome.ok 5 "h")]] ++
      (allCandidates [Root.mk ["r"] true
        [Candidate.mk ["r", "bad.jpg"] (ProcOutcome.hashFail 3 "boom"),
         Candidate.mk ["r", "ok.jpg"] (ProcOutcome.ok 5 "h")]]).filterMap failMsg) ∧
    (∃ e, failMsg (Candidate.mk ["r", "bad.jpg"] (ProcOutcome.hashFail 3 "boom")) =
        some (procMsg ["r", "bad.jpg"] e) ∧
      procMsg ["r", "bad.jpg"] e ∈ (scan_folders [Root.mk ["r"] true
        [Candidate.mk ["r", "bad.jpg"] (ProcOutcome.hashFail 3 "boom"),
         Candidate.mk ["r", "ok.jpg"] (ProcOutcome.ok 5 "h")]]).errors) ∧
    (∀ f ∈ (scan_folders [Root.mk ["r"] true
        [Candidate.mk ["r", "bad.jpg"] (ProcOutcome.hashFail 3 "boom"),
         Candidate.mk ["r", "ok.jpg"] (ProcOutcome.ok 5 "h")]]).unique_files,
      f.path ≠ ["r", "bad.jpg"]) ∧
    (∀ g ∈ (scan_folders [Root.mk ["r"] true
        [Candidate.mk ["r", "bad.jpg"] (ProcOutcome.hashFail 3 "boom"),
         Candidate.mk ["r", "ok.jpg"] (ProcOutcome.ok 5 "h")]]).duplicate_groups,
      ∀ f ∈ g.files, f.path ≠ ["r", "bad.jpg"]) :=
  C5_per_file_error_isolation
    [Root.mk ["r"] true
      [Candidate.mk ["r", "bad.jpg"] (ProcOutcome.hashFail 3 "boom"),
       Candidate.mk ["r", "ok.jpg"] (ProcOutcome.ok 5 "h")]]
    (Candidate.mk ["r", "bad.jpg"] (ProcOutcome.hashFail 3 "boom"))
    (by decide) (by decide) (by decide)

/-! Filesystem operation lemmas. -/

theorem find?_key_filter_ne {β : Type} (p q : FPath) (hne : q ≠ p) :
    ∀ l : List (FPath × β),
    (l.filter (fun e => e.1 != p)).find? (fun e => e.1 == q) = l.find? (fun e => e.1 == q) := by
  intro l
  induction l with
  | nil => simp
  | cons e rest ih =>
    by_cases hq : (e.1 == q) = true
    · have hkey : e.1 = q := eq_of_beq hq
      have hp : (e.1 != p) = true := by
        simp only [bne_iff_ne, ne_eq, hkey]
        exact hne
      rw [List.filter_cons, if_pos hp]
      rw [List.find?_cons, List.find?_cons, hq]
    · have hq' : (e.1 == q) = false := bool_eq_false hq
      by_cases hp : (e.1 != p) = true
      · rw [List.filter_cons, if_pos hp]
        rw [List.find?_cons, List.find?_cons, hq']
        exact ih
      · rw [List.filter_cons, if_neg hp]
        rw [List.find?_cons, hq']
        exact ih

theorem lookupFile_setFile_self (fs : FS) (p : FPath) (c : FContent) :
    (fs.setFile p c).lookupFile p = some c := by
  unfold FS.setFile FS.lookupFile
  rw [List.find?_cons]
  simp

theorem lookupFile_setFile_ne (fs : FS) (p : FPath) (c : FContent) (q : FPath) (h : q ≠ p) :
    (fs.setFile p c).lookupFile q = fs.lookupFile q := by
  unfold FS.setFile FS.lookupFile
  rw [List.find?_cons]
  have hpq : (p == q) = false := by
    rw [beq_eq_false_iff_ne]
    exact fun hh => h hh.symm
  simp only [hpq]
  rw [find?_key_filter_ne p q h]

theorem lookupFile_removeFile_self (fs : FS) (p : FPath) :
    (fs.removeFile p).lookupFile p = none := by
  unfold FS.removeFile FS.lookupFile
  have : (fs.files.filter (fun e => e.1 != p)).find? (fun e => e.1 == p) = none := by
    rw [List.find?_eq_none]
    intro e he
    have := List.of_mem_filter he
    simp only [bne_iff_ne, ne_eq] at this
    simp [this]
  rw [this]
  rfl

theorem lookupFile_removeFile_ne (fs : FS) (p : FPath) (q : FPath) (h : q ≠ p) :
    (fs.removeFile p).lookupFile q = fs.lookupFile q := by
  unfold FS.removeFile FS.lookupFile
  rw [find?_key_filter_ne p q h]

theorem setFile_dirs (fs : FS) (p : FPath) (c : FContent) : (fs.setFile p c).dirs = fs.dirs := rfl

theorem setFile_bad (fs : FS) (p : FPath) (c : FContent) : (fs.setFile p c).bad = fs.bad := rfl

theorem removeFile_dirs (fs : FS) (p : FPath) : (fs.removeFile p).dirs = fs.dirs := rfl

theorem removeFile_bad (fs : FS) (p : FPath) : (fs.removeFile p).bad = fs.bad := rfl

theorem rename_eq (fs : FS) (src dst : FPath) (c : FContent)
    (hsrc : fs.lookupFile src = some c) (hbs : src ∉ fs.bad) (hbd : dst ∉ fs.bad)
    (hdd : fs.isDir dst = false) :
    fs.rename src dst = some ((fs.removeFile src).setFile dst c) := by
  unfold FS.rename
  rw [hsrc]
  show (if src ∈ fs.bad ∨ dst ∈ fs.bad ∨ fs.isDir dst = true then (none : Option FS)
        else some ((fs.removeFile src).setFile dst c)) =
      some ((fs.removeFile src).setFile dst c)
  rw [if_neg]
  intro h
  rcases h with h | h | h
  · exact hbs h
  · exact hbd h
  · rw [hdd] at h
    cases h

theorem rename_none_of_src_missing (fs : FS) (src dst : FPath)
    (hsrc : fs.lookupFile src = none) : fs.rename src dst = none := by
  unfold FS.rename
  rw [hsrc]

theorem mkdirParents_eq (fs : FS) (p : FPath) (hb : p ∉ fs.bad) (hf : fs.isFile p = false) :
    fs.mkdirParents p =
      some { fs with dirs := if p ∈ fs.dirs then fs.dirs else p :: fs.dirs } := by
  unfold FS.mkdirParents
  rw [if_neg hb, if_neg (by rw [hf]; exact Bool.false_ne_true)]

theorem mkdirParents_shape (fs : FS) (p : FPath) (fs' : FS)
    (h : fs.mkdirParents p = some fs') :
    fs'.files = fs.files ∧ fs'.bad = fs.bad ∧ p ∈ fs'.dirs ∧
    (∀ q, q ∈ fs.dirs → q ∈ fs'.dirs) ∧ (∀ q, q ∈ fs'.dirs → q ∈ fs.dirs ∨ q = p) := by
  unfold FS.mkdirParents at h
  by_cases hb : p ∈ fs.bad
  · rw [if_pos hb] at h
    cases h
  · rw [if_neg hb] at h
    by_cases hf : fs.isFile p = true
    · rw [if_pos hf] at h
      cases h
    · rw [if_neg hf] at h
      have hfs : fs' = { fs with dirs := if p ∈ fs.dirs then fs.dirs else p :: fs.dirs } :=
        (Option.some_inj.1 h).symm
      subst hfs
      have hproj : ({ fs with dirs := if p ∈ fs.dirs then fs.dirs else p :: fs.dirs } : FS).dirs
          = if p ∈ fs.dirs then fs.dirs else p :: fs.dirs := rfl
      refine ⟨rfl, rfl, ?_, ?_, ?_⟩
      · rw [hproj]
        by_cases hd : p ∈ fs.dirs
        · rw [if_pos hd]
          exact hd
        · rw [if_neg hd]
          exact List.mem_cons_self p _
      · intro q hq
        rw [hproj]
        by_cases hd : p ∈ fs.dirs
        · rw [if_pos hd]
          exact hq
        · rw [if_neg hd]
          exact List.mem_cons_of_mem p hq
      · intro q hq
        rw [hproj] at hq
        by_cases hd : p ∈ fs.dirs
        · rw [if_pos hd] at hq
          exact Or.inl hq
        · rw [if_neg hd] at hq
          rcases List.mem_cons.1 hq with h1 | h1
          · exact Or.inr h1
          · exact Or.inl h1

theorem save_review_metadata_eq (fs : FS) (review : FPath) (m : List (String × FPath))
    (hb : metadataPath review ∉ fs.bad) (hd : fs.isDir (metadataPath review) = false) :
    save_review_metadata fs review m = fs.setFile (metadataPath review) (FContent.ledgerFile m) := by
  unfold save_review_metadata
  rw [if_neg]
  intro h
  rcases h with h | h
  · exact hb h
  · rw [hd] at h
    cases h

theorem load_review_metadata_of_ledger (fs : FS) (review : FPath) (m : List (String × FPath))
    (hb : metadataPath review ∉ fs.bad)
    (hc : fs.lookupFile (metadataPath review) = some (FContent.ledgerFile m)) :
    load_review_metadata fs review = m := by
  unfold load_review_metadata
  rw [if_neg hb, hc]

theorem lookupEntry_eraseEntry_self (m : List (String × FPath)) (k : String) :
    lookupEntry (eraseEntry m k) k = none := by
  unfold lookupEntry eraseEntry
  have : ((m.filter (fun e => e.1 != k)).find? (fun e => e.1 == k)) = none := by
    rw [List.find?_eq_none]
    intro e he
    have := List.of_mem_filter he
    simp only [bne_iff_ne, ne_eq] at this
    simp [this]
  rw [this]
  rfl

theorem lookupEntry_setEntry_self : ∀ (m : List (String × FPath)) (k : String) (v : FPath),
    lookupEntry (setEntry m k v) k = some v := by
  intro m
  induction m with
  | nil => intro k v; simp [setEntry, lookupEntry]
  | cons e rest ih =>
    intro k v
    by_cases he : (e.1 == k) = true
    · rw [setEntry, if_pos he]
      unfold lookupEntry
      rw [List.find?_cons]
      simp
    · rw [setEntry, if_neg he]
      unfold lookupEntry
      rw [List.find?_cons]
      have he' : (e.1 == k) = false := bool_eq_false he
      simp only [he']
      exact ih k v

theorem lookupEntry_setEntry_ne : ∀ (m : List (String × FPath)) (k : String) (v : FPath)
    (k' : String), k' ≠ k → lookupEntry (setEntry m k v) k' = lookupEntry m k' := by
  intro m
  induction m with
  | nil =>
    intro k v k' h
    have : (k == k') = false := by
      rw [beq_eq_false_iff_ne]
      exact fun hh => h hh.symm
    simp [setEntry, lookupEntry, List.find?_cons, this]
  | cons e rest ih =>
    intro k v k' h
    by_cases he : (e.1 == k) = true
    · have hkey : e.1 = k := eq_of_beq he
      have hk' : (k == k') = false := by
        rw [beq_eq_false_iff_ne]
        exact fun hh => h hh.symm
      have he' : (e.1 == k') = false := by
        rw [hkey]
        exact hk'
      rw [setEntry, if_pos he]
      unfold lookupEntry
      rw [List.find?_cons, List.find?_cons]
      simp only [hk', he']
    · rw [setEntry, if_neg he]
      unfold lookupEntry
      rw [List.find?_cons, List.find?_cons]
      cases hc : (e.1 == k') with
      | true => rfl
      | false => exact ih k v k' h

/-! Branch lemmas for `revert_file`. -/

theorem revert_notfound (fs : FS) (review : FPath) (filename : String)
    (h : fs.pexists (review ++ [filename]) = false) :
    revert_file fs review filename = (fs, false, "File not found: " ++ filename) := by
  simp only [revert_file]
  rw [if_pos (by rw [h]; exact Bool.false_ne_true)]

theorem revert_noprov_none (fs : FS) (review : FPath) (filename : String)
    (h1 : fs.pexists (review ++ [filename]) = true)
    (h2 : lookupEntry (load_review_metadata fs review) filename = none) :
    revert_file fs review filename =
      (fs, false, "Original path not found for: " ++ filename) := by
  simp only [revert_file]
  rw [if_neg (fun hc => hc h1)]
  simp only [h2]

theorem revert_noprov_empty (fs : FS) (review : FPath) (filename : String) (orig : FPath)
    (h1 : fs.pexists (review ++ [filename]) = true)
    (h2 : lookupEntry (load_review_metadata fs review) filename = some orig)
    (h3 : pathStr orig = "") :
    revert_file fs review filename =
      (fs, false, "Original path not found for: " ++ filename) := by
  simp only [revert_file]
  rw [if_neg (fun hc => hc h1)]
  simp only [h2]
  rw [if_pos h3]

theorem revert_error_mkdir (fs : FS) (review : FPath) (filename : String) (orig : FPath)
    (h1 : fs.pexists (review ++ [filename]) = true)
    (h2 : lookupEntry (load_review_metadata fs review) filename = some orig)
    (h3 : pathStr orig ≠ "")
    (h4 : fs.mkdirParents orig.dropLast = none) :
    revert_file fs review filename =
      (fs, false, "Error reverting " ++ filename ++ ": OSError") := by
  simp only [revert_file]
  rw [if_neg (fun hc => hc h1)]
  simp only [h2]
  rw [if_neg h3]
  simp only [h4]

theorem revert_error_rename (fs : FS) (review : FPath) (filename : String) (orig : FPath)
    (fs1 : FS)
    (h1 : fs.pexists (review ++ [filename]) = true)
    (h2 : lookupEntry (load_review_metadata fs review) filename = some orig)
    (h3 : pathStr orig ≠ "")
    (h4 : fs.mkdirParents orig.dropLast = some fs1)
    (h5 : fs1.rename (review ++ [filename]) (get_unique_path fs1 orig) = none) :
    revert_file fs review filename =
      (fs1, false, "Error reverting " ++ filename ++ ": OSError") := by
  simp only [revert_file]
  rw [if_neg (fun hc => hc h1)]
  simp only [h2]
  rw [if_neg h3]
  simp only [h4, h5]

theorem revert_success (fs : FS) (review : FPath) (filename : String) (orig : FPath)
    (fs1 fs2 : FS)
    (h1 : fs.pexists (review ++ [filename]) = true)
    (h2 : lookupEntry (load_review_metadata fs review) filename = some orig)
    (h3 : pathStr orig ≠ "")
    (h4 : fs.mkdirParents orig.dropLast = some fs1)
    (h5 : fs1.rename (review ++ [filename]) (get_unique_path fs1 orig) = some fs2) :
    revert_file fs review filename =
      (save_review_metadata fs2 review (eraseEntry (load_review_metadata fs review) filename),
       true, "Reverted to: " ++ pathStr (get_unique_path fs1 orig)) := by
  simp only [revert_file]
  rw [if_neg (fun hc => hc h1)]
  simp only [h2]
  rw [if_neg h3]
  simp only [h4, h5]

theorem lookupFile_eq_of_files_eq (fs fs' : FS) (h : fs'.files = fs.files) (p : FPath) :
    fs'.lookupFile p = fs.lookupFile p := by
  unfold FS.lookupFile
  rw [h]

theorem pexists_of_isFile (fs : FS) (p : FPath) (h : fs.isFile p = true) :
    fs.pexists p = true := by
  unfold FS.pexists
  rw [h]
  rfl

theorem pexists_false_isFile (fs : FS) (p : FPath) (h : fs.pexists p = false) :
    fs.isFile p = false := by
  unfold FS.pexists at h
  cases hf : fs.isFile p
  · rfl
  · rw [hf] at h
    cases h

theorem pexists_false_isDir (fs : FS) (p : FPath) (h : fs.pexists p = false) :
    fs.isDir p = false := by
  unfold FS.pexists at h
  cases hd : fs.isDir p
  · rfl
  · rw [hd] at h
    simp at h

theorem isDir_iff_mem (fs : FS) (p : FPath) : fs.isDir p = true ↔ p ∈ fs.dirs := by
  unfold FS.isDir
  exact List.elem_iff

theorem append_singleton_inj (l : FPath) (a b : String) (h : l ++ [a] = l ++ [b]) : a = b := by
  have h2 := List.append_cancel_left h
  exact (List.cons_eq_cons.1 h2).1

theorem string_append_ne_of_head (a b f g : String)
    (ha : a.data ≠ []) (hb : b.data ≠ []) (hh : a.data.head? ≠ b.data.head?) :
    a ++ f ≠ b ++ g := by
  intro h
  have hd := congrArg String.data h
  rw [String.data_append, String.data_append] at hd
  rcases ha' : a.data with _ | ⟨ca, cas⟩
  · exact ha ha'
  rcases hb' : b.data with _ | ⟨cb, cbs⟩
  · exact hb hb'
  rw [ha', hb'] at hd
  simp only [List.cons_append, List.cons.injEq] at hd
  apply hh
  rw [ha', hb']
  simp [hd.1]

theorem revert_fail_files (fs : FS) (review : FPath) (filename : String)
    (h : (revert_file fs review filename).2.1 = false) :
    (revert_file fs review filename).1.files = fs.files := by
  by_cases h1 : fs.pexists (review ++ [filename]) = true
  · cases h2 : lookupEntry (load_review_metadata fs review) filename with
    | none => rw [revert_noprov_none fs review filename h1 h2]
    | some orig =>
      by_cases h3 : pathStr orig = ""
      · rw [revert_noprov_empty fs review filename orig h1 h2 h3]
      · cases h4 : fs.mkdirParents orig.dropLast with
        | none => rw [revert_error_mkdir fs review filename orig h1 h2 h3 h4]
        | some fs1 =>
          cases h5 : fs1.rename (review ++ [filename]) (get_unique_path fs1 orig) with
          | none =>
            rw [revert_error_rename fs review filename orig fs1 h1 h2 h3 h4 h5]
            exact (mkdirParents_shape fs _ fs1 h4).1
          | some fs2 =>
            rw [revert_success fs review filename orig fs1 fs2 h1 h2 h3 h4 h5] at h
            simp at h
  · rw [revert_notfound fs review filename (bool_eq_false h1)]

theorem load_entry_ledger_file (fs : FS) (review : FPath) (filename : String) (orig : FPath)
    (h : lookupEntry (load_review_metadata fs review) filename = some orig) :
    metadataPath review ∉ fs.bad ∧
    ∃ m, fs.lookupFile (metadataPath review) = some (FContent.ledgerFile m) ∧
      load_review_metadata fs review = m := by
  unfold load_review_metadata at h ⊢
  by_cases hb : metadataPath review ∈ fs.bad
  · rw [if_pos hb] at h
    simp [lookupEntry] at h
  · rw [if_neg hb] at h ⊢
    cases hc : fs.lookupFile (metadataPath review) with
    | none =>
      rw [hc] at h
      simp [lookupEntry] at h
    | some c =>
      cases c with
      | media sz =>
        rw [hc] at h
        simp [lookupEntry] at h
      | ledgerFile m =>
        exact ⟨hb, m, rfl, rfl⟩

theorem revert_success_spec (fs : FS) (review : FPath) (filename : String) (orig : FPath)
    (hb : fs.bad = [])
    (h1 : fs.isFile (review ++ [filename]) = true)
    (h2 : lookupEntry (load_review_metadata fs review) filename = some orig)
    (h3 : pathStr orig ≠ "")
    (hpf : fs.isFile orig.dropLast = false)
    (hmdir : fs.isDir (metadataPath review) = false)
    (hpm : orig.dropLast ≠ metadataPath review)
    (hfn : filename ≠ ledgerName) :
    ∃ fs3 dest,
      revert_file fs review filename = (fs3, true, "Reverted to: " ++ pathStr dest) ∧
      (dest = orig ∨ ∃ k, 1 ≤ k ∧ dest = orig.dropLast ++
        [variantName (pySplitExt (pathName orig)).1 (pySplitExt (pathName orig)).2 k]) ∧
      fs.isFile dest = false ∧ fs.isDir dest = false ∧
      orig.dropLast ∈ fs3.dirs ∧
      fs3.lookupFile dest = fs.lookupFile (review ++ [filename]) ∧
      fs3.lookupFile (review ++ [filename]) = none ∧
      fs3.bad = fs.bad ∧
      load_review_metadata fs3 review =
        eraseEntry (load_review_metadata fs review) filename := by
  obtain ⟨hmb, m, hmfile, hmload⟩ := load_entry_ledger_file fs review filename orig h2
  have hpe1 : fs.pexists (review ++ [filename]) = true := pexists_of_isFile _ _ h1
  have hnotbad : ∀ q : FPath, q ∉ fs.bad := by
    intro q
    rw [hb]
    exact List.not_mem_nil q
  have hmk : fs.mkdirParents orig.dropLast =
      some { fs with dirs := if orig.dropLast ∈ fs.dirs then fs.dirs
                             else orig.dropLast :: fs.dirs } :=
    mkdirParents_eq fs orig.dropLast (hnotbad _) hpf
  set fs1 : FS := { fs with dirs := if orig.dropLast ∈ fs.dirs then fs.dirs
                            else orig.dropLast :: fs.dirs } with hfs1
  have hshape := mkdirParents_shape fs orig.dropLast fs1 hmk
  have hfiles1 : fs1.files = fs.files := hshape.1
  have hbad1 : fs1.bad = fs.bad := hshape.2.1
  have hlf1 : ∀ p, fs1.lookupFile p = fs.lookupFile p :=
    lookupFile_eq_of_files_eq fs fs1 hfiles1
  have hif1 : ∀ p, fs1.isFile p = fs.isFile p := by
    intro p
    unfold FS.isFile
    rw [hlf1]
  set dest := get_unique_path fs1 orig with hdest
  have hspec := get_unique_path_spec fs1 orig
  have hdex : fs1.pexists dest = false := hspec.2.2
  have hshape2 : dest = orig ∨ ∃ k, 1 ≤ k ∧ dest = orig.dropLast ++
      [variantName (pySplitExt (pathName orig)).1 (pySplitExt (pathName orig)).2 k] := by
    by_cases hpe : fs1.pexists orig = true
    · rcases hspec.2.1 hpe with ⟨k, hk1, hk2, _, _⟩
      exact Or.inr ⟨k, hk1, hk2⟩
    · exact Or.inl (hspec.1 (bool_eq_false hpe))
  rcases Option.isSome_iff_exists.1 h1 with ⟨c, hc⟩
  have hc1 : fs1.lookupFile (review ++ [filename]) = some c := by
    rw [hlf1]
    exact hc
  have hrn : fs1.rename (review ++ [filename]) dest =
      some ((fs1.removeFile (review ++ [filename])).setFile dest c) :=
    rename_eq fs1 _ dest c hc1 (by rw [hbad1, hb]; exact List.not_mem_nil _)
      (by rw [hbad1, hb]; exact List.not_mem_nil _) (pexists_false_isDir fs1 dest hdex)
  set fs2 : FS := (fs1.removeFile (review ++ [filename])).setFile dest c with hfs2
  have hbad2 : fs2.bad = fs.bad := by
    rw [hfs2, setFile_bad, removeFile_bad, hbad1]
  have hdirs2 : fs2.dirs = fs1.dirs := by
    rw [hfs2, setFile_dirs, removeFile_dirs]
  have hmdir2 : fs2.isDir (metadataPath review) = false := by
    cases hd2 : fs2.isDir (metadataPath review)
    · rfl
    · exfalso
      have hmem := (isDir_iff_mem fs2 (metadataPath review)).1 hd2
      rw [hdirs2] at hmem
      rcases hshape.2.2.2.2 _ hmem with hmem2 | hmem2
      · rw [(isDir_iff_mem fs (metadataPath review)).2 hmem2] at hmdir
        cases hmdir
      · exact hpm hmem2.symm
  have hsave : save_review_metadata fs2 review
      (eraseEntry (load_review_metadata fs review) filename) =
      fs2.setFile (metadataPath review)
        (FContent.ledgerFile (eraseEntry (load_review_metadata fs review) filename)) :=
    save_review_metadata_eq fs2 review _ (by rw [hbad2, hb]; exact List.not_mem_nil _) hmdir2
  have heq := revert_success fs review filename orig fs1 fs2 hpe1 h2 h3 hmk hrn
  rw [hsave] at heq
  set fs3 : FS := fs2.setFile (metadataPath review)
      (FContent.ledgerFile (eraseEntry (load_review_metadata fs review) filename)) with hfs3
  have hfpne : review ++ [filename] ≠ metadataPath review := by
    intro hcp
    exact hfn (append_singleton_inj review filename ledgerName hcp)
  have hfp1 : fs1.pexists (review ++ [filename]) = true := by
    apply pexists_of_isFile
    rw [hif1]
    exact h1
  have hfpdest : review ++ [filename] ≠ dest := by
    intro hcp
    rw [hcp] at hfp1
    rw [hfp1] at hdex
    cases hdex
  have hmp1 : fs1.pexists (metadataPath review) = true := by
    apply pexists_of_isFile
    rw [hif1]
    unfold FS.isFile
    rw [hmfile]
    rfl
  have hdestmp : dest ≠ metadataPath review := by
    intro hcp
    rw [← hcp] at hmp1
    rw [hmp1] at hdex
    cases hdex
  refine ⟨fs3, dest, heq, hshape2, ?_, ?_, ?_, ?_, ?_, ?_, ?_⟩
  · rw [← hif1]
    exact pexists_false_isFile fs1 dest hdex
  · cases hd : fs.isDir dest
    · rfl
    · exfalso
      have hmem := (isDir_iff_mem fs dest).1 hd
      have hmem1 := hshape.2.2.2.1 dest hmem
      have : fs1.isDir dest = true := (isDir_iff_mem fs1 dest).2 hmem1
      rw [pexists_false_isDir fs1 dest hdex] at this
      cases this
  · rw [hfs3, setFile_dirs, hdirs2]
    exact hshape.2.2.1
  · rw [hfs3]
    rw [lookupFile_setFile_ne fs2 _ _ dest hdestmp]
    rw [hfs2]
    rw [lookupFile_setFile_self]
    rw [hc]
  · rw [hfs3]
    rw [lookupFile_setFile_ne fs2 _ _ _ hfpne]
    rw [hfs2]
    rw [lookupFile_setFile_ne _ _ _ _ hfpdest]
    exact lookupFile_removeFile_self fs1 _
  · rw [hfs3, setFile_bad, hbad2]
  · apply load_review_metadata_of_ledger
    · rw [hfs3, setFile_bad, hbad2, hb]
      exact List.not_mem_nil _
    · rw [hfs3]
      exact lookupFile_setFile_self fs2 _ _

theorem notfound_ne_noprov (filename : String) :
    ("File not found: " ++ filename) ≠ ("Original path not found for: " ++ filename) :=
  string_append_ne_of_head "File not found: " "Original path not found for: " filename filename
    (by decide) (by decide) (by decide)

theorem notfound_ne_error (filename : String) :
    ("File not found: " ++ filename) ≠ ("Error reverting " ++ filename ++ ": OSError") := by
  rw [String.append_assoc]
  exact string_append_ne_of_head "File not found: " "Error reverting " filename
    (filename ++ ": OSError") (by decide) (by decide) (by decide)

/-- C4 (amended): the not-found failure tuple is returned exactly when nothing
exists at the named path in the review folder; a missing ledger entry yields
the distinct no-provenance failure; and when the ledger entry is present and
nonempty and no filesystem exception interferes (no bad path, parent not
occupied by a file, writable ledger file, a filename other than the ledger's
own), the call creates the parent directory, renames the file to a
collision-free destination derived from the original path, removes the ledger
entry, persists the ledger and reports success with that destination.  (The
unamended claim fails for an empty-string ledger entry and for filesystem
exceptions, see the counterexample.) -/
theorem C4_revert_outcomes (fs : FS) (review : FPath) (filename : String) :
    (revert_file fs review filename = (fs, false, "File not found: " ++ filename) ↔
      fs.pexists (review ++ [filename]) = false) ∧
    (fs.pexists (review ++ [filename]) = true →
      lookupEntry (load_review_metadata fs review) filename = none →
      revert_file fs review filename =
        (fs, false, "Original path not found for: " ++ filename)) ∧
    (∀ orig, fs.bad = [] →
      fs.isFile (review ++ [filename]) = true →
      lookupEntry (load_review_metadata fs review) filename = some orig →
      pathStr orig ≠ "" →
      fs.isFile orig.dropLast = false →
      fs.isDir (metadataPath review) = false →
      orig.dropLast ≠ metadataPath review →
      filename ≠ ledgerName →
      ∃ fs3 dest,
        revert_file fs review filename = (fs3, true, "Reverted to: " ++ pathStr dest) ∧
        (dest = orig ∨ ∃ k, 1 ≤ k ∧ dest = orig.dropLast ++
          [variantName (pySplitExt (pathName orig)).1 (pySplitExt (pathName orig)).2 k]) ∧
        fs.isFile dest = false ∧ fs.isDir dest = false ∧
        orig.dropLast ∈ fs3.dirs ∧
        fs3.lookupFile dest = fs.lookupFile (review ++ [filename]) ∧
        fs3.lookupFile (review ++ [filename]) = none ∧
        load_review_metadata fs3 review =
          eraseEntry (load_review_metadata fs review) filename) := by
  refine ⟨⟨?_, ?_⟩, ?_, ?_⟩
  · intro heq
    by_cases h1 : fs.pexists (review ++ [filename]) = true
    · exfalso
      cases h2 : lookupEntry (load_review_metadata fs review) filename with
      | none =>
        rw [revert_noprov_none fs review filename h1 h2] at heq
        have hmsg := congrArg (fun t : FS × Bool × String => t.2.2) heq
        exact notfound_ne_noprov filename (congrArg id hmsg).symm
      | some orig =>
        by_cases h3 : pathStr orig = ""
        · rw [revert_noprov_empty fs review filename orig h1 h2 h3] at heq
          have hmsg := congrArg (fun t : FS × Bool × String => t.2.2) heq
          exact notfound_ne_noprov filename (congrArg id hmsg).symm
        · cases h4 : fs.mkdirParents orig.dropLast with
          | none =>
            rw [revert_error_mkdir fs review filename orig h1 h2 h3 h4] at heq
            have hmsg := congrArg (fun t : FS × Bool × String => t.2.2) heq
            exact notfound_ne_error filename (congrArg id hmsg).symm
          | some fs1 =>
            cases h5 : fs1.rename (review ++ [filename]) (get_unique_path fs1 orig) with
            | none =>
              rw [revert_error_rename fs review filename orig fs1 h1 h2 h3 h4 h5] at heq
              have hmsg := congrArg (fun t : FS × Bool × String => t.2.2) heq
              exact notfound_ne_error filename (congrArg id hmsg).symm
            | some fs2 =>
              rw [revert_success fs review filename orig fs1 fs2 h1 h2 h3 h4 h5] at heq
              have hok := congrArg (fun t : FS × Bool × String => t.2.1) heq
              simp at hok
    · exact bool_eq_false h1
  · intro h1
    exact revert_notfound fs review filename h1
  · intro h1 h2
    exact revert_noprov_none fs review filename h1 h2
  · intro orig hb h1 h2 h3 hpf hmdir hpm hfn
    rcases revert_success_spec fs review filename orig hb h1 h2 h3 hpf hmdir hpm hfn with
      ⟨fs3, dest, heq, hsh, hf1, hd1, hdir, hld, hlf, _, hload⟩
    exact ⟨fs3, dest, heq, hsh, hf1, hd1, hdir, hld, hlf, hload⟩

/-- C4 counterexample: (i) with the file present and a ledger entry present
but equal to the empty string, `revert_file` reports the no-provenance
failure instead of reverting; (ii) with the file present and a nonempty
ledger entry, an exception while creating the parent directory yields a
failure outcome, not the success the unamended claim promises. -/
theorem C4_revert_outcomes_cex :
    ((FS.mk [(["rev", "f"], FContent.media 1),
        (["rev", ".photosifter_metadata.json"], FContent.ledgerFile [("f", [])])]
        [["rev"]] []).pexists ["rev", "f"] = true ∧
      lookupEntry (load_review_metadata (FS.mk [(["rev", "f"], FContent.media 1),
        (["rev", ".photosifter_metadata.json"], FContent.ledgerFile [("f", [])])]
        [["rev"]] []) ["rev"]) "f" = some [] ∧
      revert_file (FS.mk [(["rev", "f"], FContent.media 1),
        (["rev", ".photosifter_metadata.json"], FContent.ledgerFile [("f", [])])]
        [["rev"]] []) ["rev"] "f" =
        (FS.mk [(["rev", "f"], FContent.media 1),
          (["rev", ".photosifter_metadata.json"], FContent.ledgerFile [("f", [])])]
          [["rev"]] [], false, "Original path not found for: f")) ∧
    ((FS.mk [(["rev", "g"], FContent.media 1),
        (["rev", ".photosifter_metadata.json"], FContent.ledgerFile [("g", ["ro", "g"])])]
        [["rev"]] [["ro"]]).pexists ["rev", "g"] = true ∧
      lookupEntry (load_review_metadata (FS.mk [(["rev", "g"], FContent.media 1),
        (["rev", ".photosifter_metadata.json"], FContent.ledgerFile [("g", ["ro", "g"])])]
        [["rev"]] [["ro"]]) ["rev"]) "g" = some ["ro", "g"] ∧
      pathStr ["ro", "g"] ≠ "" ∧
      revert_file (FS.mk [(["rev", "g"], FContent.media 1),
        (["rev", ".photosifter_metadata.json"], FContent.ledgerFile [("g", ["ro", "g"])])]
        [["rev"]] [["ro"]]) ["rev"] "g" =
        (FS.mk [(["rev", "g"], FContent.media 1),
          (["rev", ".photosifter_metadata.json"], FContent.ledgerFile [("g", ["ro", "g"])])]
          [["rev"]] [["ro"]], false, "Error reverting g: OSError")) := by
  constructor
  · refine ⟨by decide, by decide, by decide⟩
  · refine ⟨by decide, by decide, by decide, by decide⟩

/-- C4 witness: a well-formed revert succeeds and reports the destination. -/
theorem C4_revert_outcomes_witness :
    ∃ fs3 dest,
      revert_file (FS.mk [(["rev", "f.jpg"], FContent.media 1),
        (["rev", ".photosifter_metadata.json"],
          FContent.ledgerFile [("f.jpg", ["orig", "f.jpg"])])]
        [["rev"], ["orig"]] []) ["rev"] "f.jpg" =
        (fs3, true, "Reverted to: " ++ pathStr dest) ∧
      (dest = ["orig", "f.jpg"] ∨ ∃ k, 1 ≤ k ∧ dest = (["orig", "f.jpg"] : FPath).dropLast ++
        [variantName (pySplitExt (pathName ["orig", "f.jpg"])).1
          (pySplitExt (pathName ["orig", "f.jpg"])).2 k]) ∧
      (FS.mk [(["rev", "f.jpg"], FContent.media 1),
        (["rev", ".photosifter_metadata.json"],
          FContent.ledgerFile [("f.jpg", ["orig", "f.jpg"])])]
        [["rev"], ["orig"]] []).isFile dest = false ∧
      (FS.mk [(["rev", "f.jpg"], FContent.media 1),
        (["rev", ".photosifter_metadata.json"],
          FContent.ledgerFile [("f.jpg", ["orig", "f.jpg"])])]
        [["rev"], ["orig"]] []).isDir dest = false ∧
      (["orig", "f.jpg"] : FPath).dropLast ∈ fs3.dirs ∧
      fs3.lookupFile dest = (FS.mk [(["rev", "f.jpg"], FContent.media 1),
        (["rev", ".photosifter_metadata.json"],
          FContent.ledgerFile [("f.jpg", ["orig", "f.jpg"])])]
        [["rev"], ["orig"]] []).lookupFile ["rev", "f.jpg"] ∧
      fs3.lookupFile ["rev", "f.jpg"] = none ∧
      load_review_metadata fs3 ["rev"] =
        eraseEntry (load_review_metadata (FS.mk [(["rev", "f.jpg"], FContent.media 1),
          (["rev", ".photosifter_metadata.json"],
            FContent.ledgerFile [("f.jpg", ["orig", "f.jpg"])])]
          [["rev"], ["orig"]] []) ["rev"]) "f.jpg" :=
  (C4_revert_outcomes (FS.mk [(["rev", "f.jpg"], FContent.media 1),
      (["rev", ".photosifter_metadata.json"],
        FContent.ledgerFile [("f.jpg", ["orig", "f.jpg"])])]
      [["rev"], ["orig"]] []) ["rev"] "f.jpg").2.2 ["orig", "f.jpg"]
    rfl (by decide) (by decide) (by decide) (by decide) (by decide) (by decide) (by decide)

/-- C10: revert is atomic with respect to the on-disk ledger: every failure
outcome leaves every regular file (in particular the ledger file and all its
entries) unchanged; the on-disk ledger can differ from before only when the
call succeeded; and a successful, exception-free revert persists exactly the
ledger with that filename's entry removed, after the rename. -/
theorem C10_revert_ledger_atomicity (fs : FS) (review : FPath) (filename : String) :
    ((revert_file fs review filename).2.1 = false →
      (revert_file fs review filename).1.files = fs.files) ∧
    ((revert_file fs review filename).1.lookupFile (metadataPath review) ≠
        fs.lookupFile (metadataPath review) →
      (revert_file fs review filename).2.1 = true) ∧
    (∀ orig, fs.bad = [] →
      fs.isFile (review ++ [filename]) = true →
      lookupEntry (load_review_metadata fs review) filename = some orig →
      pathStr orig ≠ "" → fs.isFile orig.dropLast = false →
      fs.isDir (metadataPath review) = false →
      orig.dropLast ≠ metadataPath review → filename ≠ ledgerName →
      (revert_file fs review filename).2.1 = true ∧
      load_review_metadata (revert_file fs review filename).1 review =
        eraseEntry (load_review_metadata fs review) filename) := by
  refine ⟨revert_fail_files fs review filename, ?_, ?_⟩
  · intro hne
    by_cases hok : (revert_file fs review filename).2.1 = true
    · exact hok
    · exfalso
      apply hne
      exact lookupFile_eq_of_files_eq fs _
        (revert_fail_files fs review filename (bool_eq_false hok)) _
  · intro orig hb h1 h2 h3 hpf hmdir hpm hfn
    rcases revert_success_spec fs review filename orig hb h1 h2 h3 hpf hmdir hpm hfn with
      ⟨fs3, dest, heq, _, _, _, _, _, _, _, hload⟩
    rw [heq]
    exact ⟨rfl, hload⟩

/-- C10 witness: a failing revert (missing ledger entry) leaves the files
untouched, and a successful one persists the erased ledger. -/
theorem C10_revert_ledger_atomicity_witness :
    ((revert_file (FS.mk [(["rev", "h.jpg"], FContent.media 1)] [["rev"]] [])
        ["rev"] "h.jpg").2.1 = false →
      (revert_file (FS.mk [(["rev", "h.jpg"], FContent.media 1)] [["rev"]] [])
        ["rev"] "h.jpg").1.files =
        (FS.mk [(["rev", "h.jpg"], FContent.media 1)] [["rev"]] []).files) ∧
    ((revert_file (FS.mk [(["rev", "f.jpg"], FContent.media 1),
        (["rev", ".photosifter_metadata.json"],
          FContent.ledgerFile [("f.jpg", ["orig", "f.jpg"])])]
        [["rev"], ["orig"]] []) ["rev"] "f.jpg").2.1 = true ∧
      load_review_metadata (revert_file (FS.mk [(["rev", "f.jpg"], FContent.media 1),
        (["rev", ".photosifter_metadata.json"],
          FContent.ledgerFile [("f.jpg", ["orig", "f.jpg"])])]
        [["rev"], ["orig"]] []) ["rev"] "f.jpg").1 ["rev"] =
        eraseEntry (load_review_metadata (FS.mk [(["rev", "f.jpg"], FContent.media 1),
          (["rev", ".photosifter_metadata.json"],
            FContent.ledgerFile [("f.jpg", ["orig", "f.jpg"])])]
          [["rev"], ["orig"]] []) ["rev"]) "f.jpg") :=
  ⟨(C10_revert_ledger_atomicity (FS.mk [(["rev", "h.jpg"], FContent.media 1)] [["rev"]] [])
      ["rev"] "h.jpg").1,
   (C10_revert_ledger_atomicity (FS.mk [(["rev", "f.jpg"], FContent.media 1),
      (["rev", ".photosifter_metadata.json"],
        FContent.ledgerFile [("f.jpg", ["orig", "f.jpg"])])]
      [["rev"], ["orig"]] []) ["rev"] "f.jpg").2.2 ["orig", "f.jpg"]
    rfl (by decide) (by decide) (by decide) (by decide) (by decide) (by decide) (by decide)⟩

/-! C8: listing the review folder. -/

theorem charListLe_total : ∀ a b : List Char, charListLe a b = true ∨ charListLe b a = true := by
  intro a
  induction a with
  | nil => intro b; left; rfl
  | cons x xs ih =>
    intro b
    cases b with
    | nil => right; rfl
    | cons y ys =>
      by_cases hxy : x.toNat = y.toNat
      · rcases ih ys with h | h
        · left
          simp only [charListLe]
          rw [if_pos hxy]
          exact h
        · right
          simp only [charListLe]
          rw [if_pos hxy.symm]
          exact h
      · rcases Nat.lt_or_ge x.toNat y.toNat with hlt | hge
        · left
          simp only [charListLe]
          rw [if_neg hxy]
          exact decide_eq_true hlt
        · right
          simp only [charListLe]
          rw [if_neg (fun hh => hxy hh.symm)]
          apply decide_eq_true
          omega

theorem charListLe_trans : ∀ a b c : List Char, charListLe a b = true →
    charListLe b c = true → charListLe a c = true := by
  intro a
  induction a with
  | nil => intro b c _ _; rfl
  | cons x xs ih =>
    intro b c hab hbc
    cases b with
    | nil => simp [charListLe] at hab
    | cons y ys =>
      cases c with
      | nil => simp [charListLe] at hbc
      | cons z zs =>
        by_cases hxy : x.toNat = y.toNat
        · by_cases hyz : y.toNat = z.toNat
          · have hxz : x.toNat = z.toNat := hxy.trans hyz
            simp only [charListLe] at hab hbc ⊢
            rw [if_pos hxy] at hab
            rw [if_pos hyz] at hbc
            rw [if_pos hxz]
            exact ih ys zs hab hbc
          · simp only [charListLe] at hbc ⊢
            rw [if_neg hyz] at hbc
            have hyz' : y.toNat < z.toNat := of_decide_eq_true hbc
            have hxz : ¬ x.toNat = z.toNat := by omega
            rw [if_neg hxz]
            apply decide_eq_true
            omega
        · simp only [charListLe] at hab
          rw [if_neg hxy] at hab
          have hxy' : x.toNat < y.toNat := of_decide_eq_true hab
          by_cases hyz : y.toNat = z.toNat
          · simp only [charListLe]
            have hxz : ¬ x.toNat = z.toNat := by omega
            rw [if_neg hxz]
            apply decide_eq_true
            omega
          · simp only [charListLe] at hbc ⊢
            rw [if_neg hyz] at hbc
            have hyz' : y.toNat < z.toNat := of_decide_eq_true hbc
            have hxz : ¬ x.toNat = z.toNat := by omega
            rw [if_neg hxz]
            apply decide_eq_true
            omega

theorem pathName_concat (l : FPath) (a : String) : pathName (l ++ [a]) = a := by
  unfold pathName
  simp

theorem mem_reviewTriples (fs : FS) (review : FPath) (hrev : review ≠ [])
    (t : String × String × Nat) :
    t ∈ reviewTriples fs review ↔
      ((fs.isFile (review ++ [t.1]) = true ∧ hiddenName t.1 = false ∧
        t.2.1 = (match lookupEntry (load_review_metadata fs review) t.1 with
                 | some o => pathStr o
                 | none => "Unknown") ∧
        t.2.2 = (fs.statSize (review ++ [t.1])).getD 0)) := by
  constructor
  · intro ht
    rcases List.mem_filterMap.1 ht with ⟨p, hp, hmk⟩
    have hcond : (fs.isFile p && !hiddenName (pathName p)) = true := by
      by_cases hc : (fs.isFile p && !hiddenName (pathName p)) = true
      · exact hc
      · rw [if_neg hc] at hmk
        cases hmk
    rw [if_pos hcond] at hmk
    have hdrop : p.dropLast = review := by
      have := List.mem_filter.1 hp
      exact eq_of_beq this.2
    have hpne : p ≠ [] := by
      intro hp0
      rw [hp0] at hdrop
      exact hrev hdrop.symm
    have hpform : p = review ++ [pathName p] := by
      have hgl := List.dropLast_concat_getLast hpne
      have hname : pathName p = p.getLast hpne := by
        unfold pathName
        rw [List.getLastD_eq_getLast?, List.getLast?_eq_getLast p hpne]
        rfl
      rw [hname, ← hdrop]
      exact hgl.symm
    have hband := Bool.and_eq_true_iff.1 hcond
    have htq : t = (pathName p,
        (match lookupEntry (load_review_metadata fs review) (pathName p) with
         | some o => pathStr o
         | none => "Unknown"),
        (fs.statSize p).getD 0) := (Option.some_inj.1 hmk).symm
    subst htq
    refine ⟨?_, ?_, rfl, ?_⟩
    · show fs.isFile (review ++ [pathName p]) = true
      rw [← hpform]
      exact hband.1
    · show hiddenName (pathName p) = false
      have hh := hband.2
      cases hhn : hiddenName (pathName p)
      · rfl
      · rw [hhn] at hh
        exact absurd hh (by decide)
    · show (fs.statSize p).getD 0 = (fs.statSize (review ++ [pathName p])).getD 0
      rw [← hpform]
  · intro ⟨hfile, hhid, h2, h3⟩
    apply List.mem_filterMap.2
    refine ⟨review ++ [t.1], ?_, ?_⟩
    · apply List.mem_filter.2
      constructor
      · apply List.mem_append_left
        rcases Option.isSome_iff_exists.1 hfile with ⟨c, hc⟩
        unfold FS.lookupFile at hc
        cases hfind : fs.files.find? (fun e => e.1 == review ++ [t.1]) with
        | none =>
          rw [hfind] at hc
          cases hc
        | some e =>
          have hmem := List.mem_of_find?_eq_some hfind
          have hbeq := List.find?_some hfind
          have hkey : e.1 = review ++ [t.1] := eq_of_beq hbeq
          rw [← hkey]
          exact List.mem_map_of_mem (fun e => e.1) hmem
      · have : (review ++ [t.1]).dropLast = review := by simp
        rw [this]
        exact beq_self_eq_true review
    · have hname : pathName (review ++ [t.1]) = t.1 := pathName_concat review t.1
      rw [if_pos (by rw [hname, hfile, hhid]; rfl)]
      rw [hname]
      rcases t with ⟨t1, t2, t3⟩
      simp only at h2 h3
      rw [h2, h3]

/-- C8: `get_review_folder_files` returns the empty list when the review
folder does not exist; otherwise its result is a permutation of the triples
`(filename, ledger entry or "Unknown", size or 0)` of the non-hidden regular
files directly inside the review folder (the dot-named ledger file is
excluded by the hidden-name filter), sorted ascending by filename, and a
triple is listed exactly when such a file exists with the ledger-derived
original path and the stat-derived size. -/
theorem C8_get_review_folder_files (fs : FS) (review : FPath) (hrev : review ≠ []) :
    (fs.pexists review = false → get_review_folder_files fs review = []) ∧
    (fs.pexists review = true →
      List.Perm (get_review_folder_files fs review) (reviewTriples fs review)) ∧
    (get_review_folder_files fs review).Pairwise (fun a b => strLe a.1 b.1 = true) ∧
    (fs.pexists review = true → ∀ t, t ∈ get_review_folder_files fs review ↔
      (fs.isFile (review ++ [t.1]) = true ∧ hiddenName t.1 = false ∧
        t.2.1 = (match lookupEntry (load_review_metadata fs review) t.1 with
                 | some o => pathStr o
                 | none => "Unknown") ∧
        t.2.2 = (fs.statSize (review ++ [t.1])).getD 0)) := by
  have hin : fs.pexists review = true →
      get_review_folder_files fs review =
        List.insertionSort (fun a b => strLe a.1 b.1 = true) (reviewTriples fs review) := by
    intro h
    unfold get_review_folder_files
    rw [if_neg (fun hc => hc h)]
  refine ⟨?_, ?_, ?_, ?_⟩
  · intro h
    unfold get_review_folder_files
    rw [if_pos (by rw [h]; exact Bool.false_ne_true)]
  · intro h
    rw [hin h]
    exact List.perm_insertionSort _ _
  · by_cases h : fs.pexists review = true
    · rw [hin h]
      haveI : IsTotal (String × String × Nat) (fun a b => strLe a.1 b.1 = true) :=
        ⟨fun a b => charListLe_total a.1.data b.1.data⟩
      haveI : IsTrans (String × String × Nat) (fun a b => strLe a.1 b.1 = true) :=
        ⟨fun a b c hab hbc => charListLe_trans a.1.data b.1.data c.1.data hab hbc⟩
      exact List.sorted_insertionSort _ _
    · unfold get_review_folder_files
      rw [if_pos h]
      exact List.Pairwise.nil
  · intro h t
    rw [hin h]
    rw [List.mem_insertionSort]
    exact mem_reviewTriples fs review hrev t

/-- C8 witness: a review folder with a media file, the ledger file, a hidden
file and an orphaned file lists exactly the two visible files sorted by name,
with the ledger-recorded path and "Unknown" respectively. -/
theorem C8_get_review_folder_files_witness :
    ((FS.mk [(["rev", "b.jpg"], FContent.media 4),
        (["rev", ".hidden"], FContent.media 9),
        (["rev", ".photosifter_metadata.json"],
          FContent.ledgerFile [("b.jpg", ["src", "b.jpg"])]),
        (["rev", "a.jpg"], FContent.media 3)] [["rev"]] []).pexists ["rev"] = true) ∧
    List.Perm (get_review_folder_files (FS.mk [(["rev", "b.jpg"], FContent.media 4),
        (["rev", ".hidden"], FContent.media 9),
        (["rev", ".photosifter_metadata.json"],
          FContent.ledgerFile [("b.jpg", ["src", "b.jpg"])]),
        (["rev", "a.jpg"], FContent.media 3)] [["rev"]] []) ["rev"])
      (reviewTriples (FS.mk [(["rev", "b.jpg"], FContent.media 4),
        (["rev", ".hidden"], FContent.media 9),
        (["rev", ".photosifter_metadata.json"],
          FContent.ledgerFile [("b.jpg", ["src", "b.jpg"])]),
        (["rev", "a.jpg"], FContent.media 3)] [["rev"]] []) ["rev"]) ∧
    get_review_folder_files (FS.mk [(["rev", "b.jpg"], FContent.media 4),
        (["rev", ".hidden"], FContent.media 9),
        (["rev", ".photosifter_metadata.json"],
          FContent.ledgerFile [("b.jpg", ["src", "b.jpg"])]),
        (["rev", "a.jpg"], FContent.media 3)] [["rev"]] []) ["rev"] =
      [("a.jpg", "Unknown", 3), ("b.jpg", "src/b.jpg", 4)] :=
  ⟨by decide,
   (C8_get_review_folder_files (FS.mk [(["rev", "b.jpg"], FContent.media 4),
        (["rev", ".hidden"], FContent.media 9),
        (["rev", ".photosifter_metadata.json"],
          FContent.ledgerFile [("b.jpg", ["src", "b.jpg"])]),
        (["rev", "a.jpg"], FContent.media 3)] [["rev"]] []) ["rev"]
      (by decide)).2.1 (by decide),
   by decide⟩

/-! C1: round trip of the smart move and revert. -/

theorem pexists_of_isDir (fs : FS) (p : FPath) (h : fs.isDir p = true) :
    fs.pexists p = true := by
  unfold FS.pexists
  rw [h]
  simp

theorem append_singleton_ne_self (l : FPath) (a : String) : l ++ [a] ≠ l := by
  intro h
  have := congrArg List.length h
  simp at this

theorem rename_shape (fs : FS) (src dst : FPath) (fs' : FS)
    (h : fs.rename src dst = some fs') :
    ∃ cf, fs.lookupFile src = some cf ∧
      fs' = (fs.removeFile src).setFile dst cf := by
  unfold FS.rename at h
  cases hs : fs.lookupFile src with
  | none =>
    rw [hs] at h
    cases h
  | some cf =>
    simp only [hs] at h
    by_cases hc : src ∈ fs.bad ∨ dst ∈ fs.bad ∨ fs.isDir dst = true
    · rw [if_pos hc] at h
      cases h
    · rw [if_neg hc] at h
      exact ⟨cf, rfl, (Option.some_inj.1 h).symm⟩

theorem get_unique_path_child (fs : FS) (review : FPath) (n : String) :
    ∃ x, get_unique_path fs (review ++ [n]) = review ++ [x] := by
  have hspec := get_unique_path_spec fs (review ++ [n])
  by_cases hp : fs.pexists (review ++ [n]) = true
  · rcases hspec.2.1 hp with ⟨k, _, hk2, _, _⟩
    refine ⟨variantName (pySplitExt (pathName (review ++ [n]))).1
      (pySplitExt (pathName (review ++ [n]))).2 k, ?_⟩
    rw [hk2]
    have : (review ++ [n]).dropLast = review := by simp
    rw [this]
  · exact ⟨n, hspec.1 (bool_eq_false hp)⟩

theorem moveStep_eq_some (review : FPath) (st : MoveState) (f : MediaFile) (fs' : FS)
    (hr : st.fs.rename f.path (get_unique_path st.fs (review ++ [pathName f.path])) = some fs') :
    moveStep review st f =
      ⟨fs', setEntry st.meta
        (pathName (get_unique_path st.fs (review ++ [pathName f.path]))) f.path,
        st.moved + 1, st.errs⟩ := by
  simp only [moveStep, hr]

theorem moveStep_eq_none (review : FPath) (st : MoveState) (f : MediaFile)
    (hr : st.fs.rename f.path (get_unique_path st.fs (review ++ [pathName f.path])) = none) :
    moveStep review st f =
      { st with errs := st.errs ++ ["Error moving " ++ pathStr f.path ++ ": OSError"] } := by
  simp only [moveStep, hr]

theorem moveStep_bad (review : FPath) (st : MoveState) (f : MediaFile) :
    (moveStep review st f).fs.bad = st.fs.bad := by
  cases hr : st.fs.rename f.path (get_unique_path st.fs (review ++ [pathName f.path])) with
  | none => rw [moveStep_eq_none review st f hr]
  | some fs' =>
    rw [moveStep_eq_some review st f fs' hr]
    rcases rename_shape _ _ _ _ hr with ⟨cf, _, hshape⟩
    simp only [hshape, setFile_bad, removeFile_bad]

theorem moveStep_dirs (review : FPath) (st : MoveState) (f : MediaFile) :
    (moveStep review st f).fs.dirs = st.fs.dirs := by
  cases hr : st.fs.rename f.path (get_unique_path st.fs (review ++ [pathName f.path])) with
  | none => rw [moveStep_eq_none review st f hr]
  | some fs' =>
    rw [moveStep_eq_some review st f fs' hr]
    rcases rename_shape _ _ _ _ hr with ⟨cf, _, hshape⟩
    simp only [hshape, setFile_dirs, removeFile_dirs]

theorem moveStep_lookupFile_pres (review : FPath) (st : MoveState) (f : MediaFile)
    (q : FPath) (hqe : st.fs.pexists q = true) (hqf : q ≠ f.path) :
    (moveStep review st f).fs.lookupFile q = st.fs.lookupFile q := by
  cases hr : st.fs.rename f.path (get_unique_path st.fs (review ++ [pathName f.path])) with
  | none => rw [moveStep_eq_none review st f hr]
  | some fs' =>
    rw [moveStep_eq_some review st f fs' hr]
    rcases rename_shape _ _ _ _ hr with ⟨cf, _, hshape⟩
    have hdfresh : st.fs.pexists (get_unique_path st.fs (review ++ [pathName f.path])) = false :=
      (get_unique_path_spec st.fs (review ++ [pathName f.path])).2.2
    have hqd : q ≠ get_unique_path st.fs (review ++ [pathName f.path]) := by
      intro hq
      rw [← hq] at hdfresh
      rw [hqe] at hdfresh
      cases hdfresh
    show fs'.lookupFile q = st.fs.lookupFile q
    rw [hshape]
    rw [lookupFile_setFile_ne _ _ _ _ hqd, lookupFile_removeFile_ne _ _ _ hqf]

theorem moveStep_isFile_false_pres (review : FPath) (st : MoveState) (f : MediaFile)
    (q : FPath) (hqe : st.fs.pexists q = true) (hq : st.fs.isFile q = false) :
    (moveStep review st f).fs.isFile q = false := by
  cases hr : st.fs.rename f.path (get_unique_path st.fs (review ++ [pathName f.path])) with
  | none =>
    rw [moveStep_eq_none review st f hr]
    exact hq
  | some fs' =>
    rw [moveStep_eq_some review st f fs' hr]
    rcases rename_shape _ _ _ _ hr with ⟨cf, hcf, hshape⟩
    have hqf : q ≠ f.path := by
      intro hh
      rw [hh] at hq
      unfold FS.isFile at hq
      rw [hcf] at hq
      cases hq
    have hdfresh : st.fs.pexists (get_unique_path st.fs (review ++ [pathName f.path])) = false :=
      (get_unique_path_spec st.fs (review ++ [pathName f.path])).2.2
    have hqd : q ≠ get_unique_path st.fs (review ++ [pathName f.path]) := by
      intro hqq
      rw [← hqq] at hdfresh
      rw [hqe] at hdfresh
      cases hdfresh
    show fs'.isFile q = false
    rw [hshape]
    unfold FS.isFile
    rw [lookupFile_setFile_ne _ _ _ _ hqd, lookupFile_removeFile_ne _ _ _ hqf]
    exact hq

theorem moveStep_meta_pres (review : FPath) (st : MoveState) (f : MediaFile) (d : String)
    (hde : st.fs.pexists (review ++ [d]) = true) :
    lookupEntry (moveStep review st f).meta d = lookupEntry st.meta d := by
  cases hr : st.fs.rename f.path (get_unique_path st.fs (review ++ [pathName f.path])) with
  | none => rw [moveStep_eq_none review st f hr]
  | some fs' =>
    rw [moveStep_eq_some review st f fs' hr]
    rcases get_unique_path_child st.fs review (pathName f.path) with ⟨x, hx⟩
    have hdfresh : st.fs.pexists (get_unique_path st.fs (review ++ [pathName f.path])) = false :=
      (get_unique_path_spec st.fs (review ++ [pathName f.path])).2.2
    have hxd : x ≠ d := by
      intro hh
      rw [hx, hh] at hdfresh
      rw [hde] at hdfresh
      cases hdfresh
    have hname : pathName (get_unique_path st.fs (review ++ [pathName f.path])) = x := by
      rw [hx]
      exact pathName_concat review x
    show lookupEntry (setEntry st.meta
      (pathName (get_unique_path st.fs (review ++ [pathName f.path]))) f.path) d =
      lookupEntry st.meta d
    rw [hname]
    exact lookupEntry_setEntry_ne st.meta x f.path d (fun hh => hxd hh.symm)

theorem move_fold_inv (review : FPath) (dirs0 : List FPath) (parentP : FPath)
    (hparent : parentP ∈ dirs0) :
    ∀ (fsl : List MediaFile) (st : MoveState),
    st.fs.bad = [] → st.fs.dirs = dirs0 → st.fs.isFile parentP = false →
    (fsl.foldl (moveStep review) st).fs.bad = [] ∧
    (fsl.foldl (moveStep review) st).fs.dirs = dirs0 ∧
    (fsl.foldl (moveStep review) st).fs.isFile parentP = false := by
  intro fsl
  induction fsl with
  | nil => intro st h1 h2 h3; exact ⟨h1, h2, h3⟩
  | cons f rest ih =>
    intro st h1 h2 h3
    simp only [List.foldl_cons]
    apply ih
    · rw [moveStep_bad]
      exact h1
    · rw [moveStep_dirs]
      exact h2
    · apply moveStep_isFile_false_pres
      · apply pexists_of_isDir
        apply (isDir_iff_mem st.fs parentP).2
        rw [h2]
        exact hparent
      · exact h3

theorem move_fold_inv2 (review : FPath) (dirs0 : List FPath) (parentP dest : FPath)
    (c : FContent) (d : String) (mpath : FPath)
    (hparent : parentP ∈ dirs0) (hdest : dest = review ++ [d]) :
    ∀ (fsl : List MediaFile) (st : MoveState),
    (∀ f ∈ fsl, f.path.dropLast ≠ review) →
    st.fs.bad = [] → st.fs.dirs = dirs0 → st.fs.isFile parentP = false →
    st.fs.lookupFile dest = some c → lookupEntry st.meta d = some mpath →
    (fsl.foldl (moveStep review) st).fs.bad = [] ∧
    (fsl.foldl (moveStep review) st).fs.dirs = dirs0 ∧
    (fsl.foldl (moveStep review) st).fs.isFile parentP = false ∧
    (fsl.foldl (moveStep review) st).fs.lookupFile dest = some c ∧
    lookupEntry (fsl.foldl (moveStep review) st).meta d = some mpath := by
  intro fsl
  induction fsl with
  | nil => intro st _ h1 h2 h3 h4 h5; exact ⟨h1, h2, h3, h4, h5⟩
  | cons f rest ih =>
    intro st hall h1 h2 h3 h4 h5
    simp only [List.foldl_cons]
    have hdeste : st.fs.pexists dest = true := by
      apply pexists_of_isFile
      unfold FS.isFile
      rw [h4]
      rfl
    have hdestf : dest ≠ f.path := by
      intro hh
      apply hall f (List.mem_cons_self f rest)
      rw [← hh, hdest]
      simp
    apply ih
    · intro g hg
      exact hall g (List.mem_cons_of_mem f hg)
    · rw [moveStep_bad]
      exact h1
    · rw [moveStep_dirs]
      exact h2
    · apply moveStep_isFile_false_pres
      · apply pexists_of_isDir
        apply (isDir_iff_mem st.fs parentP).2
        rw [h2]
        exact hparent
      · exact h3
    · rw [moveStep_lookupFile_pres review st f dest hdeste hdestf]
      exact h4
    · rw [moveStep_meta_pres review st f d (hdest ▸ hdeste)]
      exact h5

theorem listing_excludes (fs : FS) (review : FPath) (d : String) (hrev : review ≠ [])
    (hnf : fs.isFile (review ++ [d]) = false) :
    ∀ t ∈ get_review_folder_files fs review, t.1 ≠ d := by
  intro t ht heq
  unfold get_review_folder_files at ht
  by_cases hp : fs.pexists review = true
  · rw [if_neg (fun hc => hc hp)] at ht
    rw [List.mem_insertionSort] at ht
    have hmem := (mem_reviewTriples fs review hrev t).1 ht
    rw [heq] at hmem
    rw [hmem.1] at hnf
    cases hnf
  · rw [if_pos hp] at ht
    cases ht

/-- C1 (amended): in an error-free environment (`bad = []`), for a batch none
of whose files originates directly inside the review folder, a file that
`move_duplicates_to_review` successfully renames into the review folder (its
source was readable when its turn came) and whose allocated in-review name is
not the ledger file's name can be passed to `revert_file` under that name:
the revert succeeds, the file's content ends up at its recorded original
absolute path or at a collision-suffixed variant of it produced by the path
allocator, the ledger entry for that in-review name is removed and the ledger
persisted, and `get_review_folder_files` no longer lists that name.
(Without the no-review-origin proviso the round trip can fail, see the
counterexample: a later batch item whose recorded path coincides with the
moved file's in-review location renames it away again.) -/
theorem C1_move_revert_roundtrip
    (fs fs1 : FS) (review : FPath) (result : ScanResult)
    (pre post : List MediaFile) (m : MediaFile) (c : FContent)
    (hfiles : result.get_all_files_to_delete = pre ++ m :: post)
    (hbad : fs.bad = [])
    (hrevne : review ≠ [])
    (hmk : fs.mkdirParents review = some fs1)
    (hnorev : ∀ f ∈ result.get_all_files_to_delete, f.path.dropLast ≠ review)
    (hsrc : (moveLoopState review fs1 pre).fs.lookupFile m.path = some c)
    (hd : moveDestName review (moveLoopState review fs1 pre) m ≠ ledgerName)
    (hparent_dir : fs.isDir m.path.dropLast = true)
    (hparent_file : fs.isFile m.path.dropLast = false)
    (hmdir : fs.isDir (metadataPath review) = false)
    (horig : pathStr m.path ≠ "") :
    ∃ fsm moved errs fs3 dest,
      move_duplicates_to_review fs result review = some (fsm, moved, errs) ∧
      revert_file fsm review (moveDestName review (moveLoopState review fs1 pre) m) =
        (fs3, true, "Reverted to: " ++ pathStr dest) ∧
      (dest = m.path ∨ ∃ k, 1 ≤ k ∧ dest = m.path.dropLast ++
        [variantName (pySplitExt (pathName m.path)).1 (pySplitExt (pathName m.path)).2 k]) ∧
      fs3.lookupFile dest = some c ∧
      lookupEntry (load_review_metadata fs3 review)
        (moveDestName review (moveLoopState review fs1 pre) m) = none ∧
      (∀ t ∈ get_review_folder_files fs3 review,
        t.1 ≠ moveDestName review (moveLoopState review fs1 pre) m) := by
  set stPre := moveLoopState review fs1 pre with hstPre
  set dst := get_unique_path stPre.fs (review ++ [pathName m.path]) with hdstdef
  set d := moveDestName review stPre m with hdname
  have hdeq : d = pathName dst := rfl
  obtain ⟨x, hx⟩ := get_unique_path_child stPre.fs review (pathName m.path)
  have hdx : d = x := by
    rw [hdeq, hdstdef, hx]
    exact pathName_concat review x
  have hdst_eq : dst = review ++ [d] := by
    rw [hdx]
    exact hx
  have hshape1 := mkdirParents_shape fs review fs1 hmk
  have hfiles1 : fs1.files = fs.files := hshape1.1
  have hbad1 : fs1.bad = [] := by
    rw [hshape1.2.1]
    exact hbad
  have hparent0 : m.path.dropLast ∈ fs1.dirs :=
    hshape1.2.2.2.1 _ ((isDir_iff_mem fs _).1 hparent_dir)
  have hfile1 : fs1.isFile m.path.dropLast = false := by
    unfold FS.isFile
    rw [lookupFile_eq_of_files_eq fs fs1 hfiles1]
    exact hparent_file
  have hpre0 := move_fold_inv review fs1.dirs m.path.dropLast hparent0 pre
    ⟨fs1, load_review_metadata fs1 review, 0, []⟩ hbad1 rfl hfile1
  have hpreB : stPre.fs.bad = [] := hpre0.1
  have hpreD : stPre.fs.dirs = fs1.dirs := hpre0.2.1
  have hpreP : stPre.fs.isFile m.path.dropLast = false := hpre0.2.2
  have hpe_dst_false : stPre.fs.pexists dst = false :=
    (get_unique_path_spec stPre.fs (review ++ [pathName m.path])).2.2
  have hrn : stPre.fs.rename m.path dst =
      some ((stPre.fs.removeFile m.path).setFile dst c) :=
    rename_eq stPre.fs m.path dst c hsrc
      (by rw [hpreB]; exact List.not_mem_nil _)
      (by rw [hpreB]; exact List.not_mem_nil _)
      (pexists_false_isDir stPre.fs dst hpe_dst_false)
  have hstep := moveStep_eq_some review stPre m _ hrn
  set st1 := moveStep review stPre m with hst1
  have h1fs : st1.fs = (stPre.fs.removeFile m.path).setFile dst c := by
    rw [hstep]
  have h1bad : st1.fs.bad = [] := by
    rw [h1fs, setFile_bad, removeFile_bad]
    exact hpreB
  have h1dirs : st1.fs.dirs = fs1.dirs := by
    rw [h1fs, setFile_dirs, removeFile_dirs]
    exact hpreD
  have h1dest : st1.fs.lookupFile dst = some c := by
    rw [h1fs]
    exact lookupFile_setFile_self _ _ _
  have h1meta : lookupEntry st1.meta d = some m.path := by
    rw [hstep]
    show lookupEntry (setEntry stPre.meta (pathName dst) m.path) d = some m.path
    rw [← hdeq]
    exact lookupEntry_setEntry_self _ _ _
  have h1parent : st1.fs.isFile m.path.dropLast = false := by
    rw [hst1]
    apply moveStep_isFile_false_pres
    · apply pexists_of_isDir
      apply (isDir_iff_mem stPre.fs _).2
      rw [hpreD]
      exact hparent0
    · exact hpreP
  have hnorev_post : ∀ f ∈ post, f.path.dropLast ≠ review := by
    intro f hf
    apply hnorev
    rw [hfiles]
    exact List.mem_append_right _ (List.mem_cons_of_mem m hf)
  have hpost := move_fold_inv2 review fs1.dirs m.path.dropLast dst c d m.path hparent0
    hdst_eq post st1 hnorev_post h1bad h1dirs h1parent h1dest h1meta
  set stF := post.foldl (moveStep review) st1 with hstF
  have hFbad : stF.fs.bad = [] := hpost.1
  have hFdirs : stF.fs.dirs = fs1.dirs := hpost.2.1
  have hFparent : stF.fs.isFile m.path.dropLast = false := hpost.2.2.1
  have hFdest : stF.fs.lookupFile dst = some c := hpost.2.2.2.1
  have hFmeta : lookupEntry stF.meta d = some m.path := hpost.2.2.2.2
  have hmp_ne_rev : metadataPath review ≠ review := append_singleton_ne_self review ledgerName
  have hmdirF : stF.fs.isDir (metadataPath review) = false := by
    cases hdm : stF.fs.isDir (metadataPath review)
    · rfl
    · exfalso
      have hmem := (isDir_iff_mem stF.fs _).1 hdm
      rw [hFdirs] at hmem
      rcases hshape1.2.2.2.2 _ hmem with hmem2 | hmem2
      · rw [(isDir_iff_mem fs _).2 hmem2] at hmdir
        cases hmdir
      · exact hmp_ne_rev hmem2
  have hsave : save_review_metadata stF.fs review stF.meta =
      stF.fs.setFile (metadataPath review) (FContent.ledgerFile stF.meta) :=
    save_review_metadata_eq stF.fs review stF.meta
      (by rw [hFbad]; exact List.not_mem_nil _) hmdirF
  set fsm := stF.fs.setFile (metadataPath review) (FContent.ledgerFile stF.meta) with hfsm
  have hmove : move_duplicates_to_review fs result review =
      some (fsm, stF.moved, stF.errs) := by
    simp only [move_duplicates_to_review, hmk]
    rw [hfiles, List.foldl_append, List.foldl_cons]
    rw [← hsave]
    exact rfl
  have hfsmbad : fsm.bad = [] := by
    rw [hfsm, setFile_bad]
    exact hFbad
  have hdst_ne_mp : dst ≠ metadataPath review := by
    rw [hdst_eq]
    intro hh
    exact hd (append_singleton_inj review d ledgerName hh)
  have hfsm_dst : fsm.lookupFile dst = some c := by
    rw [hfsm, lookupFile_setFile_ne _ _ _ _ hdst_ne_mp]
    exact hFdest
  have hfsm_file : fsm.isFile (review ++ [d]) = true := by
    rw [← hdst_eq]
    unfold FS.isFile
    rw [hfsm_dst]
    rfl
  have hfsm_load : load_review_metadata fsm review = stF.meta := by
    apply load_review_metadata_of_ledger
    · rw [hfsmbad]
      exact List.not_mem_nil _
    · rw [hfsm]
      exact lookupFile_setFile_self _ _ _
  have hfsm_entry : lookupEntry (load_review_metadata fsm review) d = some m.path := by
    rw [hfsm_load]
    exact hFmeta
  have hparent_ne_mp : m.path.dropLast ≠ metadataPath review := by
    intro hpm
    rw [hpm] at hparent_dir
    rw [hparent_dir] at hmdir
    cases hmdir
  have hfsm_parent_file : fsm.isFile m.path.dropLast = false := by
    unfold FS.isFile
    rw [hfsm, lookupFile_setFile_ne _ _ _ _ hparent_ne_mp]
    exact hFparent
  have hfsm_mdir : fsm.isDir (metadataPath review) = false := by
    unfold FS.isDir
    rw [hfsm, setFile_dirs]
    exact hmdirF
  rcases revert_success_spec fsm review d m.path hfsmbad hfsm_file hfsm_entry horig
      hfsm_parent_file hfsm_mdir hparent_ne_mp hd with
    ⟨fs3, dest, heq, hsh, _, _, _, hld, hlf, _, hload⟩
  refine ⟨fsm, stF.moved, stF.errs, fs3, dest, hmove, heq, hsh, ?_, ?_, ?_⟩
  · rw [hld, ← hdst_eq]
    exact hfsm_dst
  · rw [hload, hfsm_load]
    exact lookupEntry_eraseEntry_self stF.meta d
  · apply listing_excludes fs3 review d hrevne
    unfold FS.isFile
    rw [hlf]
    rfl

/-- Counterexample batch: the same in-review path `rev/f.jpg` is listed twice
(overlapping roots can scan the review folder itself), with a foreign file
`X/f.jpg` in between. -/
def cexA0 : MediaFile := ⟨["rev", "f.jpg"], 1, "h", "", none, true, none, none⟩

/-- Counterexample batch: the middle file, which is successfully moved into
the review folder under the name `f.jpg` and whose revert then fails. -/
def cexM : MediaFile := ⟨["X", "f.jpg"], 2, "h", "", none, true, none, none⟩

/-- Counterexample scan result: one duplicate group with no selection, so all
three listed members are in `get_all_files_to_delete`. -/
def cexResult : ScanResult :=
  ⟨3, 0, [⟨"h", [cexA0, cexM, cexA0], none⟩], [], []⟩

/-- Counterexample filesystem: `rev/f.jpg` and `X/f.jpg` exist, `rev` and `X`
are directories, nothing raises. -/
def cexFS : FS :=
  ⟨[(["rev", "f.jpg"], FContent.media 1), (["X", "f.jpg"], FContent.media 2)],
   [["rev"], ["X"]], []⟩

/-- Filesystem after the counterexample move call. -/
def cexFsm : FS :=
  ((move_duplicates_to_review cexFS cexResult ["rev"]).getD (cexFS, 0, [])).1

/-- C1 counterexample: the round trip fails without the no-review-origin
proviso.  First `rev/f.jpg` is renamed away to `rev/f_1.jpg`; then the foreign
file `X/f.jpg` is successfully moved into the review folder under the name
`f.jpg` (its rename succeeds, all three moves succeed and the call reports 3
moved, no errors); but the second listing of `rev/f.jpg` then renames that
just-moved file away to `rev/f_2.jpg`, so `revert_file` on `f.jpg` — the
in-review filename the middle file was given — fails with "File not found"
instead of restoring it, falsifying the claim as stated. -/
theorem C1_move_revert_roundtrip_cex :
    cexResult.get_all_files_to_delete = [cexA0, cexM, cexA0] ∧
    cexFS.mkdirParents ["rev"] = some cexFS ∧
    moveDestName ["rev"] (moveLoopState ["rev"] cexFS [cexA0]) cexM = "f.jpg" ∧
    ((moveLoopState ["rev"] cexFS [cexA0]).fs.rename cexM.path
      (["rev"] ++ ["f.jpg"])).isSome = true ∧
    move_duplicates_to_review cexFS cexResult ["rev"] = some (cexFsm, 3, []) ∧
    revert_file cexFsm ["rev"] "f.jpg" =
      (cexFsm, false, "File not found: f.jpg") := by
  decide

/-- Concrete filesystem for the C1 witness: one media file `src/a.jpg`. -/
def c1wFS : FS := ⟨[(["src", "a.jpg"], FContent.media 5)], [["src"]], []⟩

/-- Filesystem after `mkdir` of the witness review folder. -/
def c1wFS1 : FS := ⟨[(["src", "a.jpg"], FContent.media 5)], [["rev"], ["src"]], []⟩

/-- The single batch member of the C1 witness. -/
def c1wM : MediaFile := ⟨["src", "a.jpg"], 5, "h", "", none, true, none, none⟩

/-- Scan result of the C1 witness: one group, one file to delete. -/
def c1wResult : ScanResult := ⟨1, 0, [⟨"h", [c1wM], none⟩], [], []⟩

/-- Witness for C1 at a concrete input: a singleton batch from `src/a.jpg`
meets every hypothesis, and the theorem instance follows. -/
theorem C1_move_revert_roundtrip_witness :
    ∃ fsm moved errs fs3 dest,
      move_duplicates_to_review c1wFS c1wResult ["rev"] = some (fsm, moved, errs) ∧
      revert_file fsm ["rev"]
          (moveDestName ["rev"] (moveLoopState ["rev"] c1wFS1 []) c1wM) =
        (fs3, true, "Reverted to: " ++ pathStr dest) ∧
      (dest = c1wM.path ∨ ∃ k, 1 ≤ k ∧ dest = c1wM.path.dropLast ++
        [variantName (pySplitExt (pathName c1wM.path)).1
          (pySplitExt (pathName c1wM.path)).2 k]) ∧
      fs3.lookupFile dest = some (FContent.media 5) ∧
      lookupEntry (load_review_metadata fs3 ["rev"])
        (moveDestName ["rev"] (moveLoopState ["rev"] c1wFS1 []) c1wM) = none ∧
      (∀ t ∈ get_review_folder_files fs3 ["rev"],
        t.1 ≠ moveDestName ["rev"] (moveLoopState ["rev"] c1wFS1 []) c1wM) :=
  C1_move_revert_roundtrip c1wFS c1wFS1 ["rev"] c1wResult [] [] c1wM
    (FContent.media 5) (by decide) (by decide) (by decide) (by decide)
    (by decide) (by decide) (by decide) (by decide) (by decide) (by decide)
    (by decide)
